import Mathlib

/-!
# Task service: repository, service and handler layers

A shallow embedding of the task-tracking service (`model.go`, `repo.go`,
`service.go`, `handler.go`).

* Go `int` and `int64` values are integers kept in the signed 64-bit range by
  `wrap64` wherever the source does arithmetic on them.
* `time.Time` values are abstract instants (`Time`); the instant that
  `nowFunc()` yields inside a mutating call is an argument `now` of that call.
* The map `tasks map[int64]*Task` is an association list.  The order in which
  `range r.tasks` visits the map is not fixed by Go, so `memoryRepo.List` takes
  the visiting order of the keys as an argument `order`.
* A stateful call returns the state after the call together with its result.
* A run-time panic (a slice expression out of bounds) is the result `none`.
* A handler takes what the router and the decoders hand it: the parsed path
  variable, the decoded JSON body (`none` when `Decode` fails) and the decoded
  query parameters.
-/

set_option autoImplicit false

namespace Alle

/-! ## model.go -/

/-- The type `TaskStatus` is a string type. -/
abbrev TaskStatus := String

def StatusPending : TaskStatus := "Pending"
def StatusInProgress : TaskStatus := "InProgress"
def StatusCompleted : TaskStatus := "Completed"
def StatusCancelled : TaskStatus := "Cancelled"

/-- An instant of `time.Time`. -/
abbrev Time := Nat

/-- The domain model `Task`. -/
structure Task where
  ID : Int
  Title : String
  Description : String
  Status : TaskStatus
  CreatedAt : Time
  UpdatedAt : Time
deriving DecidableEq, Repr

/-! ## Machine integers and Go built-ins -/

/-- Two's-complement wrap-around of a signed 64-bit integer operation. -/
def wrap64 (x : Int) : Int := (x + 2 ^ 63) % 2 ^ 64 - 2 ^ 63

/-- The largest `int64`. -/
def maxInt64 : Int := 2 ^ 63 - 1

/-- The smallest `int64`. -/
def minInt64 : Int := -(2 ^ 63)

/-- Values of Go's `error` that this program produces: the sentinel
`ErrNotFound` and the errors built by `fmt.Errorf` / `errors.New`. -/
inductive GoError where
  | ErrNotFound
  | Errorf (msg : String)
deriving DecidableEq, Repr

deriving instance DecidableEq for Except

/-- Map index expression `m[k]` with the comma-ok form: `none` is `ok = false`. -/
def mapGet : List (Int × Task) → Int → Option Task
  | [], _ => none
  | (k', t) :: rest, k => if k' = k then some t else mapGet rest k

/-- Map assignment `m[k] = v`: replaces the entry of an existing key, adds one
for a new key. -/
def mapSet : List (Int × Task) → Int → Task → List (Int × Task)
  | [], k, v => [(k, v)]
  | (k', t) :: rest, k, v =>
    if k' = k then (k, v) :: rest else (k', t) :: mapSet rest k v

/-- The built-in `delete(m, k)`. -/
def mapDelete (m : List (Int × Task)) (k : Int) : List (Int × Task) :=
  m.filter (fun e => decide (e.1 ≠ k))

/-- Slice expression `a[lo:hi]`: panics (`none`) unless `0 ≤ lo ≤ hi ≤ cap(a)`.
The callers below never pass `hi` above `len(a)`, so the length stands for the
capacity. -/
def sliceExpr {α : Type} (a : List α) (lo hi : Int) : Option (List α) :=
  if 0 ≤ lo ∧ lo ≤ hi ∧ hi ≤ (a.length : Int) then
    some ((a.drop lo.toNat).take (hi - lo).toNat)
  else none

/-! ## repo.go -/

/-- Pagination and filtering: `Status` is `none` for a nil pointer. -/
structure ListFilter where
  Status : Option TaskStatus
  Offset : Int
  Limit : Int
deriving DecidableEq, Repr

/-- The in-memory repository (the lock and `nowFunc` are not state). -/
structure memoryRepo where
  tasks : List (Int × Task)
  nextID : Int
deriving DecidableEq, Repr

def NewMemoryRepo : memoryRepo := { tasks := [], nextID := 0 }

/-- `Create`: increments `nextID`, stamps the task and stores a copy under the
new id.  The error result is always nil. -/
def memoryRepo.Create (r : memoryRepo) (now : Time) (t : Task) :
    memoryRepo × Except GoError Int :=
  let nextID := wrap64 (r.nextID + 1)
  let id := nextID
  let c : Task := { t with ID := id, CreatedAt := now, UpdatedAt := now }
  ({ tasks := mapSet r.tasks id c, nextID := nextID }, Except.ok id)

/-- `Get`: a copy of the stored task, or `ErrNotFound`. -/
def memoryRepo.Get (r : memoryRepo) (id : Int) : Except GoError Task :=
  match mapGet r.tasks id with
  | none => Except.error GoError.ErrNotFound
  | some t => Except.ok t

/-- `Update`: overwrites title, description, status and updated-at of the task
stored under `t.ID`, in place. -/
def memoryRepo.Update (r : memoryRepo) (now : Time) (t : Task) :
    memoryRepo × Except GoError Unit :=
  match mapGet r.tasks t.ID with
  | none => (r, Except.error GoError.ErrNotFound)
  | some existing =>
    let updated : Task :=
      { existing with Title := t.Title, Description := t.Description,
                      Status := t.Status, UpdatedAt := now }
    ({ r with tasks := mapSet r.tasks t.ID updated }, Except.ok ())

/-- `Delete`: removes the entry, or `ErrNotFound`. -/
def memoryRepo.Delete (r : memoryRepo) (id : Int) : memoryRepo × Except GoError Unit :=
  match mapGet r.tasks id with
  | none => (r, Except.error GoError.ErrNotFound)
  | some _ => ({ r with tasks := mapDelete r.tasks id }, Except.ok ())

/-- The slice `all` that the loop of `List` builds when `range r.tasks` visits
the keys in the order `order`. -/
def memoryRepo.matching (r : memoryRepo) (order : List Int) (status : Option TaskStatus) :
    List Task :=
  order.filterMap (fun k =>
    match mapGet r.tasks k with
    | none => none
    | some t =>
      match status with
      | some s => if t.Status ≠ s then none else some t
      | none => some t)

/-- The orders in which `range r.tasks` may visit the map: every key once. -/
def memoryRepo.RangeOrder (r : memoryRepo) (order : List Int) : Prop :=
  order.Perm (r.tasks.map Prod.fst)

/-- `List`: the page of matching tasks and the total; `none` is the run-time
panic of the slice expression `all[start:end]` (`stop` is the source's `end`).
The error result is always nil. -/
def memoryRepo.List (r : memoryRepo) (order : List Int) (filter : ListFilter) :
    Option (List Task × Int) :=
  let all := r.matching order filter.Status
  let total : Int := all.length
  let start := filter.Offset
  let start := if start > total then total else start
  let stop := wrap64 (start + filter.Limit)
  let stop := if stop > total then total else stop
  match sliceExpr all start stop with
  | none => none
  | some page => some (page, total)

/-! ## service.go -/

/-- `CreateTask`: rejects the empty title, creates a Pending task and returns
the stored copy. -/
def TaskService.CreateTask (r : memoryRepo) (now : Time) (title desc : String) :
    memoryRepo × Except GoError Task :=
  if title = "" then (r, Except.error (GoError.Errorf "title required"))
  else
    let t : Task :=
      { ID := 0, Title := title, Description := desc, Status := StatusPending,
        CreatedAt := 0, UpdatedAt := 0 }
    match r.Create now t with
    | (r', Except.error err) => (r', Except.error err)
    | (r', Except.ok id) => (r', r'.Get id)

def TaskService.GetTask (r : memoryRepo) (id : Int) : Except GoError Task :=
  r.Get id

/-- `UpdateTask`: fetches the task, replaces the title when the supplied one is
non-empty, replaces description and status, persists and fetches again. -/
def TaskService.UpdateTask (r : memoryRepo) (now : Time) (id : Int) (title desc : String)
    (status : TaskStatus) : memoryRepo × Except GoError Task :=
  match r.Get id with
  | Except.error err => (r, Except.error err)
  | Except.ok t =>
    let t : Task := if title ≠ "" then { t with Title := title } else t
    let t : Task := { t with Description := desc, Status := status }
    match r.Update now t with
    | (r', Except.error err) => (r', Except.error err)
    | (r', Except.ok _) => (r', r'.Get id)

def TaskService.DeleteTask (r : memoryRepo) (id : Int) : memoryRepo × Except GoError Unit :=
  r.Delete id

/-- `ListTasks`: `page - 1` cannot overflow once `page ≥ 1`; the product is a
64-bit `int` multiplication. -/
def TaskService.ListTasks (r : memoryRepo) (order : List Int) (page size : Int)
    (status : Option TaskStatus) : Option (List Task × Int) :=
  let page := if page < 1 then 1 else page
  let size := if size < 1 then 10 else size
  let offset := wrap64 ((page - 1) * size)
  let filter : ListFilter := { Status := status, Offset := offset, Limit := size }
  r.List order filter

/-! ## handler.go -/

/-- The predicate `unicode.IsSpace`. -/
def unicode.IsSpace (c : Char) : Bool :=
  let n := c.toNat
  (9 ≤ n && n ≤ 13) || n == 0x20 || n == 0x85 || n == 0xA0 || n == 0x1680 ||
    (0x2000 ≤ n && n ≤ 0x200A) || n == 0x2028 || n == 0x2029 || n == 0x202F ||
    n == 0x205F || n == 0x3000

/-- The library function `strings.TrimSpace`: drops leading and trailing white space. -/
def strings.TrimSpace (s : String) : String :=
  String.mk ((s.data.dropWhile unicode.IsSpace).reverse.dropWhile unicode.IsSpace).reverse

/-- The method `Error()` of the errors of this program. -/
def GoError.Error : GoError → String
  | GoError.ErrNotFound => "not found"
  | GoError.Errorf msg => msg

/-- Decoded body of `POST /tasks` (an absent field decodes to `""`). -/
structure createReq where
  Title : String
  Description : String
deriving DecidableEq, Repr

/-- Decoded body of `PUT /tasks/{id}`: `none` is a nil pointer (field absent). -/
structure updateReq where
  Title : Option String
  Description : Option String
  Status : Option TaskStatus
deriving DecidableEq, Repr

/-- List response with pagination metadata. -/
structure listResp where
  Total : Int
  Page : Int
  Size : Int
  Pages : Int
  Tasks : List Task
deriving DecidableEq, Repr

/-- What a handler writes as the response body. -/
inductive Body where
  | task (t : Task)
  | error (msg : String)
  | list (resp : listResp)
  | empty
deriving DecidableEq, Repr

/-- Status code and body written by a handler. -/
structure Response where
  code : Nat
  body : Body
deriving DecidableEq, Repr

def writeErr (code : Nat) (msg : String) : Response := { code := code, body := Body.error msg }

/-- `Handler.create`; `body = none` is a body that `Decode` rejects. -/
def Handler.create (r : memoryRepo) (now : Time) (body : Option createReq) :
    memoryRepo × Response :=
  match body with
  | none => (r, writeErr 400 "invalid json")
  | some req =>
    if strings.TrimSpace req.Title = "" then (r, writeErr 400 "title required")
    else
      match TaskService.CreateTask r now req.Title req.Description with
      | (r', Except.error err) => (r', writeErr 500 err.Error)
      | (r', Except.ok t) => (r', { code := 201, body := Body.task t })

/-- `Handler.update`; `id` is the parsed path variable, `body = none` is a body
that `Decode` rejects. -/
def Handler.update (r : memoryRepo) (now : Time) (id : Int) (body : Option updateReq) :
    memoryRepo × Response :=
  match body with
  | none => (r, writeErr 400 "invalid json")
  | some req =>
    match TaskService.GetTask r id with
    | Except.error err =>
      if err = GoError.ErrNotFound then (r, writeErr 404 "task not found")
      else (r, writeErr 500 err.Error)
    | Except.ok current =>
      let title := current.Title
      match (match req.Title with
             | some t => if strings.TrimSpace t = "" then none else some t
             | none => some title) with
      | none => (r, writeErr 400 "title cannot be empty")
      | some title =>
        let desc := match req.Description with
          | some d => d
          | none => current.Description
        let status := match req.Status with
          | some s => s
          | none => current.Status
        match TaskService.UpdateTask r now id title desc status with
        | (r', Except.error err) => (r', writeErr 500 err.Error)
        | (r', Except.ok updated) => (r', { code := 200, body := Body.task updated })

/-- A call that `Handler.update` makes on the service `h.svc`. -/
inductive ServiceCall where
  | GetTask (id : Int)
  | UpdateTask (id : Int) (title desc : String) (status : TaskStatus)
deriving DecidableEq, Repr

/-- The calls on `h.svc` that `Handler.update` makes, in the order of the
source: none when `Decode` fails, then `GetTask` (handler.go line 164), and,
when the task exists and the title test passes, `UpdateTask` (line 191). -/
def Handler.updateCalls (r : memoryRepo) (id : Int) (body : Option updateReq) :
    List ServiceCall :=
  match body with
  | none => []
  | some req =>
    ServiceCall.GetTask id ::
      match TaskService.GetTask r id with
      | Except.error _ => []
      | Except.ok current =>
        match (match req.Title with
               | some t => if strings.TrimSpace t = "" then none else some t
               | none => some current.Title) with
        | none => []
        | some title =>
          let desc := match req.Description with
            | some d => d
            | none => current.Description
          let status := match req.Status with
            | some s => s
            | none => current.Status
          [ServiceCall.UpdateTask id title desc status]

/-- `Handler.delete`; `id` is the parsed path variable. -/
def Handler.delete (r : memoryRepo) (id : Int) : memoryRepo × Response :=
  match TaskService.DeleteTask r id with
  | (r', Except.error err) =>
    if err = GoError.ErrNotFound then (r', writeErr 404 "task not found")
    else (r', writeErr 500 err.Error)
  | (r', Except.ok _) => (r', { code := 204, body := Body.empty })

/-- The decoded query of a request, `url.Values`: the parameters in the order
of the query string. -/
abbrev url.Values := List (String × String)

/-- `Values.Get`: the first value of the key, `""` when the key is absent. -/
def url.Values.Get : url.Values → String → String
  | [], _ => ""
  | (k, v) :: rest, key => if k = key then v else url.Values.Get rest key

/-- The library function `strconv.Atoi`: an optional sign and decimal digits;
`none` is a syntax or range error. -/
def strconv.Atoi (s : String) : Option Int :=
  let signed : Bool × List Char :=
    match s.data with
    | '-' :: rest => (true, rest)
    | '+' :: rest => (false, rest)
    | cs => (false, cs)
  let ds := signed.2
  if ds.isEmpty || !(ds.all Char.isDigit) then none
  else
    let n : Int := ds.foldl (fun acc c => 10 * acc + ((c.toNat - 48 : Nat) : Int)) 0
    let v : Int := if signed.1 then -n else n
    if v < minInt64 ∨ maxInt64 < v then none else some v

/-- `parseIntQuery`: the parameter as a positive `int`, else the default. -/
def parseIntQuery (q : url.Values) (key : String) (defaultVal : Int) : Int :=
  let s := q.Get key
  if s = "" then defaultVal
  else
    match strconv.Atoi s with
    | none => defaultVal
    | some n => if n ≤ 0 then defaultVal else n

/-- `parseStatusQuery`: `Except.ok none` is the result `nil, nil`. -/
def parseStatusQuery (q : url.Values) : Except GoError (Option TaskStatus) :=
  let s := strings.TrimSpace (q.Get "status")
  if s = "" then Except.ok none
  else
    let ts : TaskStatus := s
    if ts = StatusPending ∨ ts = StatusInProgress ∨ ts = StatusCompleted ∨ ts = StatusCancelled
    then Except.ok (some ts)
    else Except.error (GoError.Errorf "invalid status")

/-- `Handler.list`; `order` is the order in which `range` visits the map during
the call, `none` is the panic of `ListTasks`.  The division is Go's, truncated
toward zero. -/
def Handler.list (r : memoryRepo) (order : List Int) (q : url.Values) : Option Response :=
  let page := parseIntQuery q "page" 1
  let size := parseIntQuery q "size" 10
  let size := if size > 100 then 100 else size
  match parseStatusQuery q with
  | Except.error _ => some (writeErr 400 "invalid status filter")
  | Except.ok status =>
    match TaskService.ListTasks r order page size status with
    | none => none
    | some (tasks, total) =>
      let pages := Int.tdiv (wrap64 (total + size - 1)) size
      some { code := 200,
             body := Body.list
               { Total := total, Page := page, Size := size, Pages := pages, Tasks := tasks } }

/-! ## Sequences of calls -/

/-- A call on the repository. -/
inductive RepoOp where
  | create (now : Time) (t : Task)
  | get (id : Int)
  | update (now : Time) (t : Task)
  | delete (id : Int)
  | list (order : List Int) (filter : ListFilter)

/-- The repository after a call. -/
def RepoOp.next (r : memoryRepo) : RepoOp → memoryRepo
  | RepoOp.create now t => (r.Create now t).1
  | RepoOp.get _ => r
  | RepoOp.update now t => (r.Update now t).1
  | RepoOp.delete id => (r.Delete id).1
  | RepoOp.list _ _ => r

/-- The id a call returns, for a `Create`. -/
def RepoOp.created (r : memoryRepo) : RepoOp → List Int
  | RepoOp.create now t =>
    match (r.Create now t).2 with
    | Except.ok id => [id]
    | Except.error _ => []
  | _ => []

/-- The repository after a sequence of calls. -/
def runOps (r : memoryRepo) (ops : List RepoOp) : memoryRepo :=
  ops.foldl RepoOp.next r

/-- The ids returned by the `Create` calls of a sequence, in call order. -/
def createdIds : memoryRepo → List RepoOp → List Int
  | _, [] => []
  | r, op :: ops => op.created r ++ createdIds (op.next r) ops

/-- Number of `Create` calls in a sequence. -/
def createCount (ops : List RepoOp) : Nat :=
  ops.countP (fun op => match op with
    | RepoOp.create _ _ => true
    | _ => false)

/-- A call on the service that may write. -/
inductive ServiceOp where
  | CreateTask (now : Time) (title desc : String)
  | UpdateTask (now : Time) (id : Int) (title desc : String) (status : TaskStatus)
  | DeleteTask (id : Int)

def ServiceOp.next (r : memoryRepo) : ServiceOp → memoryRepo
  | ServiceOp.CreateTask now title desc => (TaskService.CreateTask r now title desc).1
  | ServiceOp.UpdateTask now id title desc status =>
    (TaskService.UpdateTask r now id title desc status).1
  | ServiceOp.DeleteTask id => (TaskService.DeleteTask r id).1

/-- A request to a handler that may write. -/
inductive HandlerOp where
  | create (now : Time) (body : Option createReq)
  | update (now : Time) (id : Int) (body : Option updateReq)
  | delete (id : Int)

def HandlerOp.next (r : memoryRepo) : HandlerOp → memoryRepo
  | HandlerOp.create now body => (Handler.create r now body).1
  | HandlerOp.update now id body => (Handler.update r now id body).1
  | HandlerOp.delete id => (Handler.delete r id).1

/-! ## main.go -/

/-- `seed`: three sample tasks; the three instants are those of the three
`Create` calls. -/
def seed (r : memoryRepo) (now₁ now₂ now₃ : Time) : memoryRepo :=
  let r := (r.Create now₁
    { ID := 0, Title := "Buy groceries", Description := "Milk, eggs, bread",
      Status := StatusPending, CreatedAt := 0, UpdatedAt := 0 }).1
  let r := (r.Create now₂
    { ID := 0, Title := "Deploy release", Description := "Deploy v1.2 to staging",
      Status := StatusInProgress, CreatedAt := 0, UpdatedAt := 0 }).1
  let r := (r.Create now₃
    { ID := 0, Title := "Retro meeting", Description := "Sprint retro",
      Status := StatusCompleted, CreatedAt := 0, UpdatedAt := 0 }).1
  r

/-! ## Representation invariants of the repository -/

/-- The association list is a map: no key occurs twice. -/
def memoryRepo.IsMap (r : memoryRepo) : Prop :=
  (r.tasks.map Prod.fst).Nodup

/-- Every task is stored under its own `ID`, as `Create` stores it. -/
def memoryRepo.KeyedByID (r : memoryRepo) : Prop :=
  ∀ k t, mapGet r.tasks k = some t → t.ID = k

/-- The two representation invariants together. -/
def memoryRepo.Inv (r : memoryRepo) : Prop := r.IsMap ∧ r.KeyedByID

/-- No stored task has the empty title. -/
def memoryRepo.TitlesNonEmpty (r : memoryRepo) : Prop :=
  ∀ k t, mapGet r.tasks k = some t → t.Title ≠ ""

/-- The counter is not negative and every key lies between 1 and the counter. -/
def memoryRepo.KeysInRange (r : memoryRepo) : Prop :=
  0 ≤ r.nextID ∧ ∀ k t, mapGet r.tasks k = some t → 1 ≤ k ∧ k ≤ r.nextID

/-- One of the four enumerated status values. -/
def TaskStatus.Enumerated (s : TaskStatus) : Prop :=
  s = StatusPending ∨ s = StatusInProgress ∨ s = StatusCompleted ∨ s = StatusCancelled

/-! ## Machine integers -/

theorem wrap64_eq_self {x : Int} (hlo : -(2 ^ 63) ≤ x) (hhi : x < 2 ^ 63) : wrap64 x = x := by
  unfold wrap64
  rw [Int.emod_eq_of_lt (by omega) (by omega)]
  omega

theorem wrap64_add_left (a b : Int) : wrap64 (wrap64 a + b) = wrap64 (a + b) := by
  unfold wrap64
  omega

/-! ## The map operations -/

theorem mapGet_mapSet_self (m : List (Int × Task)) (k : Int) (v : Task) :
    mapGet (mapSet m k v) k = some v := by
  induction m with
  | nil => simp [mapSet, mapGet]
  | cons e rest ih =>
    obtain ⟨k', t⟩ := e
    by_cases hk : k' = k
    · simp [mapSet, mapGet, hk]
    · simp [mapSet, mapGet, hk, ih]

theorem mapGet_mapSet_ne (m : List (Int × Task)) (k : Int) (v : Task) (k' : Int)
    (h : k' ≠ k) : mapGet (mapSet m k v) k' = mapGet m k' := by
  induction m with
  | nil => simp [mapSet, mapGet, Ne.symm h]
  | cons e rest ih =>
    obtain ⟨k₀, t⟩ := e
    by_cases hk : k₀ = k
    · subst hk
      simp [mapSet, mapGet, Ne.symm h]
    · by_cases hk' : k₀ = k'
      · subst hk'
        simp [mapSet, mapGet, hk]
      · simp [mapSet, mapGet, hk, hk', ih]

theorem mapSet_keys_of_stored (m : List (Int × Task)) (k : Int) (v old : Task)
    (h : mapGet m k = some old) : (mapSet m k v).map Prod.fst = m.map Prod.fst := by
  induction m with
  | nil => simp [mapGet] at h
  | cons e rest ih =>
    obtain ⟨k₀, t⟩ := e
    by_cases hk : k₀ = k
    · simp [mapSet, hk]
    · simp only [mapGet, hk, if_false] at h
      simp [mapSet, hk, ih h]

/-! ## CreateTask -/

/-- What `CreateTask` does with a non-empty title: the task is stored under the
next id, stamped with the instant of the call, and returned. -/
theorem createTask_of_nonempty (r : memoryRepo) (now : Time) (title desc : String)
    (h : title ≠ "") :
    TaskService.CreateTask r now title desc
      = (⟨mapSet r.tasks (wrap64 (r.nextID + 1))
            { ID := wrap64 (r.nextID + 1), Title := title, Description := desc,
              Status := StatusPending, CreatedAt := now, UpdatedAt := now },
          wrap64 (r.nextID + 1)⟩,
          Except.ok
            { ID := wrap64 (r.nextID + 1), Title := title, Description := desc,
              Status := StatusPending, CreatedAt := now, UpdatedAt := now }) := by
  simp [TaskService.CreateTask, h, memoryRepo.Create, memoryRepo.Get, mapGet_mapSet_self]

/-! ## Update -/

/-- The task that `Update` leaves under the key of `t`. -/
theorem update_of_stored (r : memoryRepo) (now : Time) (t old : Task)
    (h : mapGet r.tasks t.ID = some old) :
    r.Update now t
      = (⟨mapSet r.tasks t.ID
            { old with Title := t.Title, Description := t.Description, Status := t.Status,
                       UpdatedAt := now }, r.nextID⟩, Except.ok ()) := by
  simp [memoryRepo.Update, h]

theorem update_of_absent (r : memoryRepo) (now : Time) (t : Task)
    (h : mapGet r.tasks t.ID = none) :
    r.Update now t = (r, Except.error GoError.ErrNotFound) := by
  simp [memoryRepo.Update, h]

/-- What `UpdateTask` does to a stored task. -/
theorem updateTask_of_stored (r : memoryRepo) (hk : r.KeyedByID) (now : Time) (id : Int)
    (title desc : String) (status : TaskStatus) (old : Task)
    (h : mapGet r.tasks id = some old) :
    TaskService.UpdateTask r now id title desc status
      = (⟨mapSet r.tasks id
            { old with Title := if title = "" then old.Title else title,
                       Description := desc, Status := status, UpdatedAt := now }, r.nextID⟩,
          Except.ok
            { old with Title := if title = "" then old.Title else title,
                       Description := desc, Status := status, UpdatedAt := now }) := by
  have hid : old.ID = id := hk id old h
  by_cases ht : title = ""
  · simp [TaskService.UpdateTask, memoryRepo.Get, memoryRepo.Update, h, ht, hid,
      mapGet_mapSet_self]
  · simp [TaskService.UpdateTask, memoryRepo.Get, memoryRepo.Update, h, ht, hid,
      mapGet_mapSet_self]

theorem updateTask_of_absent (r : memoryRepo) (now : Time) (id : Int)
    (title desc : String) (status : TaskStatus) (h : mapGet r.tasks id = none) :
    TaskService.UpdateTask r now id title desc status
      = (r, Except.error GoError.ErrNotFound) := by
  simp [TaskService.UpdateTask, memoryRepo.Get, h]

theorem get_eq_ok_iff (r : memoryRepo) (id : Int) (t : Task) :
    r.Get id = Except.ok t ↔ mapGet r.tasks id = some t := by
  unfold memoryRepo.Get
  cases mapGet r.tasks id <;> simp

/-- A check of `KeyedByID` that can be evaluated on a given repository. -/
theorem keyedByID_of_all (m : List (Int × Task)) (n : Int)
    (h : m.all (fun e => decide (e.2.ID = e.1)) = true) :
    memoryRepo.KeyedByID ⟨m, n⟩ := by
  intro k t hget
  show t.ID = k
  induction m with
  | nil => simp [mapGet] at hget
  | cons e rest ih =>
    obtain ⟨k₀, t₀⟩ := e
    simp only [List.all_cons, Bool.and_eq_true, decide_eq_true_eq] at h
    by_cases hk : k₀ = k
    · simp only [mapGet, hk, if_true, Option.some.injEq] at hget
      rw [← hget, ← hk]
      exact h.1
    · simp only [mapGet, hk, if_false] at hget
      exact ih h.2 hget

/-- What `Handler.update` does with a decoded request for a stored task: it
answers 400 and writes nothing when the title is present and blank, and
otherwise stores the task with the present fields replaced. -/
theorem handler_update_of_stored (r : memoryRepo) (hk : r.KeyedByID) (now : Time) (id : Int)
    (req : updateReq) (cur : Task) (h : mapGet r.tasks id = some cur) :
    ((∃ title, req.Title = some title ∧ strings.TrimSpace title = "") ∧
      Handler.update r now id (some req) = (r, writeErr 400 "title cannot be empty")) ∨
    ((∀ title, req.Title = some title → strings.TrimSpace title ≠ "") ∧
      Handler.update r now id (some req)
        = (⟨mapSet r.tasks id
              { cur with Title := req.Title.getD cur.Title,
                         Description := req.Description.getD cur.Description,
                         Status := req.Status.getD cur.Status, UpdatedAt := now }, r.nextID⟩,
            ⟨200, Body.task
              { cur with Title := req.Title.getD cur.Title,
                         Description := req.Description.getD cur.Description,
                         Status := req.Status.getD cur.Status, UpdatedAt := now }⟩)) := by
  have hget : r.Get id = Except.ok cur := (get_eq_ok_iff r id cur).2 h
  obtain ⟨rt, rd, rs⟩ := req
  cases rt with
  | none =>
    right
    refine ⟨by simp, ?_⟩
    simp only [Handler.update, TaskService.GetTask, hget,
      updateTask_of_stored r hk now id _ _ _ cur h]
    by_cases hc : cur.Title = "" <;> cases rd <;> cases rs <;> simp [hc]
  | some title =>
    by_cases hb : strings.TrimSpace title = ""
    · left
      refine ⟨⟨title, rfl, hb⟩, ?_⟩
      simp [Handler.update, TaskService.GetTask, hget, hb]
    · right
      have hne : title ≠ "" := by
        intro h0
        apply hb
        rw [h0]
        decide
      refine ⟨by simpa using hb, ?_⟩
      simp only [Handler.update, TaskService.GetTask, hget, hb, if_false,
        updateTask_of_stored r hk now id _ _ _ cur h]
      cases rd <;> cases rs <;> simp [hne]

/-- When `Handler.update` makes no call of `UpdateTask`, it returns the
repository as it was. -/
theorem handler_update_of_reads (r : memoryRepo) (now : Time) (id : Int)
    (body : Option updateReq)
    (h : ∀ c, c ∈ Handler.updateCalls r id body → c = ServiceCall.GetTask id) :
    (Handler.update r now id body).1 = r := by
  cases body with
  | none => rfl
  | some req =>
    unfold Handler.update
    unfold Handler.updateCalls at h
    simp only at h ⊢
    cases hget : TaskService.GetTask r id with
    | error err =>
      simp only
      split <;> rfl
    | ok current =>
      simp only [hget] at h ⊢
      cases hreq : req.Title with
      | none =>
        simp only [hreq] at h
        have := h _ (List.mem_cons_of_mem _ (List.mem_singleton.2 rfl))
        cases this
      | some t =>
        simp only [hreq] at h ⊢
        by_cases hb : strings.TrimSpace t = ""
        · simp only [hb, if_true]
        · simp only [hb, if_false] at h
          have := h _ (List.mem_cons_of_mem _ (List.mem_singleton.2 rfl))
          cases this

/-! ## List -/

theorem mapGet_of_mem (m : List (Int × Task)) (hm : (m.map Prod.fst).Nodup) (k : Int)
    (t : Task) (h : (k, t) ∈ m) : mapGet m k = some t := by
  induction m with
  | nil => simp at h
  | cons e rest ih =>
    obtain ⟨k₀, t₀⟩ := e
    rw [List.map_cons, List.nodup_cons] at hm
    rcases List.mem_cons.1 h with heq | hmem
    · cases heq
      simp [mapGet]
    · have hne : k₀ ≠ k := by
        intro hk
        apply hm.1
        rw [hk]
        exact List.mem_map.2 ⟨(k, t), hmem, rfl⟩
      simp only [mapGet, hne, if_false]
      exact ih hm.2 hmem

/-- Visiting the keys in stored order yields the stored tasks that pass the filter. -/
theorem matching_keys (r : memoryRepo) (hm : r.IsMap) (status : Option TaskStatus) :
    r.matching (r.tasks.map Prod.fst) status
      = r.tasks.filterMap (fun e =>
          match status with
          | some s => if e.2.Status ≠ s then none else some e.2
          | none => some e.2) := by
  unfold memoryRepo.matching
  rw [List.filterMap_map]
  apply List.filterMap_congr
  intro e he
  obtain ⟨k, t⟩ := e
  simp only [Function.comp_apply, mapGet_of_mem r.tasks hm k t he]

theorem matching_length_perm (r : memoryRepo) (order : List Int) (ho : r.RangeOrder order)
    (status : Option TaskStatus) :
    (r.matching order status).length
      = (r.matching (r.tasks.map Prod.fst) status).length := by
  unfold memoryRepo.matching
  exact (List.Perm.filterMap _ ho).length_eq

theorem length_filterMap_status (m : List (Int × Task)) (s : TaskStatus) :
    (m.filterMap (fun e => if e.2.Status ≠ s then none else some e.2)).length
      = (m.filter (fun e => decide (e.2.Status = s))).length := by
  induction m with
  | nil => rfl
  | cons e rest ih =>
    simp only [ne_eq, ite_not] at ih ⊢
    by_cases h : e.2.Status = s
    · simp [List.filterMap_cons, List.filter_cons, h, ih]
    · simp [List.filterMap_cons, List.filter_cons, h, ih]

/-- The total that `List` counts under a status filter is the number of stored
tasks with that status. -/
theorem matching_length_some (r : memoryRepo) (hm : r.IsMap) (order : List Int)
    (ho : r.RangeOrder order) (s : TaskStatus) :
    (r.matching order (some s)).length
      = (r.tasks.filter (fun e => decide (e.2.Status = s))).length := by
  rw [matching_length_perm r order ho, matching_keys r hm]
  exact length_filterMap_status r.tasks s

/-- The total that `List` counts without a status filter is the number of stored tasks. -/
theorem matching_length_none (r : memoryRepo) (hm : r.IsMap) (order : List Int)
    (ho : r.RangeOrder order) :
    (r.matching order none).length = r.tasks.length := by
  rw [matching_length_perm r order ho, matching_keys r hm]
  simp

theorem mem_matching (r : memoryRepo) (order : List Int) (status : Option TaskStatus)
    (t : Task) (h : t ∈ r.matching order status) :
    (∃ k, k ∈ order ∧ mapGet r.tasks k = some t) ∧ ∀ s, status = some s → t.Status = s := by
  unfold memoryRepo.matching at h
  rw [List.mem_filterMap] at h
  obtain ⟨k, hk, hf⟩ := h
  cases hget : mapGet r.tasks k with
  | none => simp [hget] at hf
  | some t' =>
    cases status with
    | none =>
      simp only [hget, Option.some.injEq] at hf
      subst hf
      exact ⟨⟨k, hk, hget⟩, fun s hs => by cases hs⟩
    | some s₀ =>
      simp only [hget] at hf
      by_cases hst : t'.Status = s₀
      · simp only [hst, ne_eq, not_true_eq_false, if_false, Option.some.injEq] at hf
        subst hf
        refine ⟨⟨k, hk, hget⟩, ?_⟩
        intro s hs
        cases hs
        exact hst
      · simp [hst] at hf

theorem sliceExpr_subset {α : Type} (a p : List α) (lo hi : Int)
    (h : sliceExpr a lo hi = some p) : ∀ x, x ∈ p → x ∈ a := by
  unfold sliceExpr at h
  split at h
  · simp only [Option.some.injEq] at h
    subst h
    intro x hx
    exact List.mem_of_mem_drop (List.mem_of_mem_take hx)
  · cases h

/-- A successful `List` returns the length of `all` and tasks taken from `all`. -/
theorem list_eq_some (r : memoryRepo) (order : List Int) (filter : ListFilter)
    (page : List Task) (total : Int) (h : r.List order filter = some (page, total)) :
    total = ((r.matching order filter.Status).length : Int) ∧
      ∀ t, t ∈ page → t ∈ r.matching order filter.Status := by
  unfold memoryRepo.List at h
  simp only at h
  split at h
  · cases h
  · next pg hs =>
    simp only [Option.some.injEq, Prod.mk.injEq] at h
    obtain ⟨hp, ht⟩ := h
    subst hp
    exact ⟨ht.symm, sliceExpr_subset _ _ _ _ hs⟩

/-! ## The representation invariants hold in every reachable state -/

theorem mem_keys_mapSet (m : List (Int × Task)) (k : Int) (v : Task) (x : Int) :
    x ∈ (mapSet m k v).map Prod.fst ↔ x ∈ m.map Prod.fst ∨ x = k := by
  induction m with
  | nil => simp [mapSet]
  | cons e rest ih =>
    obtain ⟨k₀, t₀⟩ := e
    by_cases hk : k₀ = k
    · subst hk
      simp only [mapSet, if_true, List.map_cons, List.mem_cons]
      tauto
    · simp only [mapSet, hk, if_false, List.map_cons, List.mem_cons, ih]
      tauto

theorem nodup_keys_mapSet (m : List (Int × Task)) (k : Int) (v : Task)
    (h : (m.map Prod.fst).Nodup) : ((mapSet m k v).map Prod.fst).Nodup := by
  induction m with
  | nil => simp [mapSet]
  | cons e rest ih =>
    obtain ⟨k₀, t₀⟩ := e
    rw [List.map_cons, List.nodup_cons] at h
    by_cases hk : k₀ = k
    · subst hk
      simp only [mapSet, if_true, List.map_cons, List.nodup_cons]
      exact h
    · simp only [mapSet, hk, if_false, List.map_cons, List.nodup_cons, mem_keys_mapSet]
      refine ⟨?_, ih h.2⟩
      rintro (h1 | h1)
      · exact h.1 h1
      · exact h1.elim

theorem mapGet_mapDelete (m : List (Int × Task)) (k k' : Int) :
    mapGet (mapDelete m k) k' = if k' = k then none else mapGet m k' := by
  induction m with
  | nil => simp [mapDelete, mapGet]
  | cons e rest ih =>
    obtain ⟨k₀, t₀⟩ := e
    unfold mapDelete at ih ⊢
    simp only [ne_eq, decide_not] at ih ⊢
    by_cases hk : k₀ = k
    · subst hk
      by_cases hk' : k' = k₀
      · subst hk'
        simp [List.filter_cons, ih]
      · simp [List.filter_cons, ih, hk', mapGet, Ne.symm hk']
    · by_cases hk' : k' = k
      · subst hk'
        simp [List.filter_cons, hk, mapGet, ih]
      · simp [List.filter_cons, hk, mapGet, ih, hk']

theorem inv_new : NewMemoryRepo.Inv := by
  refine ⟨List.nodup_nil, ?_⟩
  intro k t h
  simp [NewMemoryRepo, mapGet] at h

theorem inv_create (r : memoryRepo) (h : r.Inv) (now : Time) (t : Task) :
    (r.Create now t).1.Inv := by
  refine ⟨nodup_keys_mapSet _ _ _ h.1, ?_⟩
  intro k t' hget
  change mapGet (mapSet r.tasks (wrap64 (r.nextID + 1)) _) k = some t' at hget
  by_cases hk : k = wrap64 (r.nextID + 1)
  · subst hk
    rw [mapGet_mapSet_self] at hget
    cases hget
    rfl
  · rw [mapGet_mapSet_ne _ _ _ k hk] at hget
    exact h.2 k t' hget

theorem inv_update (r : memoryRepo) (h : r.Inv) (now : Time) (t : Task) :
    (r.Update now t).1.Inv := by
  cases hold : mapGet r.tasks t.ID with
  | none => rw [update_of_absent r now t hold]; exact h
  | some old =>
    rw [update_of_stored r now t old hold]
    refine ⟨nodup_keys_mapSet _ _ _ h.1, ?_⟩
    intro k t' hget
    change mapGet (mapSet r.tasks t.ID _) k = some t' at hget
    by_cases hk : k = t.ID
    · subst hk
      rw [mapGet_mapSet_self] at hget
      cases hget
      exact h.2 t.ID old hold
    · rw [mapGet_mapSet_ne _ _ _ k hk] at hget
      exact h.2 k t' hget

theorem inv_delete (r : memoryRepo) (h : r.Inv) (id : Int) : (r.Delete id).1.Inv := by
  unfold memoryRepo.Delete
  cases hold : mapGet r.tasks id with
  | none => exact h
  | some old =>
    refine ⟨?_, ?_⟩
    · exact List.Nodup.sublist (List.Sublist.map _ (List.filter_sublist _)) h.1
    · intro k t' hget
      change mapGet (mapDelete r.tasks id) k = some t' at hget
      rw [mapGet_mapDelete] at hget
      by_cases hk : k = id
      · simp [hk] at hget
      · simp only [hk, if_false] at hget
        exact h.2 k t' hget

theorem inv_createTask (r : memoryRepo) (h : r.Inv) (now : Time) (title desc : String) :
    (TaskService.CreateTask r now title desc).1.Inv := by
  unfold TaskService.CreateTask
  split
  · exact h
  · exact inv_create r h now _

theorem inv_updateTask (r : memoryRepo) (h : r.Inv) (now : Time) (id : Int)
    (title desc : String) (status : TaskStatus) :
    (TaskService.UpdateTask r now id title desc status).1.Inv := by
  cases hold : mapGet r.tasks id with
  | none => rw [updateTask_of_absent r now id title desc status hold]; exact h
  | some old =>
    have hid : old.ID = id := h.2 id old hold
    have hu := inv_update r h now
      { old with Title := if title = "" then old.Title else title, Description := desc,
                 Status := status }
    rw [update_of_stored r now _ old (by rw [← hid] at hold; exact hold)] at hu
    rw [updateTask_of_stored r h.2 now id title desc status old hold]
    rw [← hid]
    exact hu

theorem inv_serviceOp (r : memoryRepo) (h : r.Inv) (op : ServiceOp) : (op.next r).Inv := by
  cases op with
  | CreateTask now title desc => exact inv_createTask r h now title desc
  | UpdateTask now id title desc status => exact inv_updateTask r h now id title desc status
  | DeleteTask id => exact inv_delete r h id

theorem inv_repoOp (r : memoryRepo) (h : r.Inv) (op : RepoOp) : (op.next r).Inv := by
  cases op with
  | create now t => exact inv_create r h now t
  | get id => exact h
  | update now t => exact inv_update r h now t
  | delete id => exact inv_delete r h id
  | list order filter => exact h

/-- Every state reached from a fresh repository by repository calls satisfies
the representation invariants. -/
theorem inv_runOps (ops : List RepoOp) : (runOps NewMemoryRepo ops).Inv := by
  unfold runOps
  have key : ∀ (l : List RepoOp) (r : memoryRepo), r.Inv → (l.foldl RepoOp.next r).Inv := by
    intro l
    induction l with
    | nil => intro r h; exact h
    | cons op rest ih => intro r h; exact ih _ (inv_repoOp r h op)
  exact key ops _ inv_new

/-- Every state reached from a fresh repository by service calls satisfies the
representation invariants. -/
theorem inv_serviceOps (ops : List ServiceOp) :
    (ops.foldl ServiceOp.next NewMemoryRepo).Inv := by
  have key : ∀ (l : List ServiceOp) (r : memoryRepo), r.Inv →
      (l.foldl ServiceOp.next r).Inv := by
    intro l
    induction l with
    | nil => intro r h; exact h
    | cons op rest ih => intro r h; exact ih _ (inv_serviceOp r h op)
  exact key ops _ inv_new

theorem inv_handlerOp (r : memoryRepo) (h : r.Inv) (op : HandlerOp) : (op.next r).Inv := by
  cases op with
  | create now body =>
    show (Handler.create r now body).1.Inv
    unfold Handler.create
    cases body with
    | none => exact h
    | some req =>
      have hc := inv_createTask r h now req.Title req.Description
      simp only
      split
      · exact h
      · split
        · next r' err heq => rw [heq] at hc; exact hc
        · next r' t heq => rw [heq] at hc; exact hc
  | update now id body =>
    show (Handler.update r now id body).1.Inv
    cases body with
    | none => exact h
    | some req =>
      cases hold : mapGet r.tasks id with
      | none =>
        have hget : r.Get id = Except.error GoError.ErrNotFound := by
          simp [memoryRepo.Get, hold]
        simp only [Handler.update, TaskService.GetTask, hget, if_true]
        exact h
      | some cur =>
        rcases handler_update_of_stored r h.2 now id req cur hold with ⟨_, hres⟩ | ⟨_, hres⟩
        · rw [hres]; exact h
        · rw [hres]
          refine ⟨nodup_keys_mapSet _ _ _ h.1, ?_⟩
          intro k t' hget
          change mapGet (mapSet r.tasks id _) k = some t' at hget
          by_cases hk : k = id
          · subst hk
            rw [mapGet_mapSet_self] at hget
            cases hget
            exact h.2 k cur hold
          · rw [mapGet_mapSet_ne _ _ _ k hk] at hget
            exact h.2 k t' hget
  | delete id =>
    show (Handler.delete r id).1.Inv
    have hd := inv_delete r h id
    unfold Handler.delete TaskService.DeleteTask
    split
    · next r' err heq =>
      rw [heq] at hd
      split <;> exact hd
    · next r' u heq => rw [heq] at hd; exact hd

/-- Every state reached from a fresh repository by handler requests satisfies
the representation invariants. -/
theorem inv_handlerOps (ops : List HandlerOp) :
    (ops.foldl HandlerOp.next NewMemoryRepo).Inv := by
  have key : ∀ (l : List HandlerOp) (r : memoryRepo), r.Inv →
      (l.foldl HandlerOp.next r).Inv := by
    intro l
    induction l with
    | nil => intro r h; exact h
    | cons op rest ih => intro r h; exact ih _ (inv_handlerOp r h op)
  exact key ops _ inv_new

/-! ## Ids returned by `Create` -/

theorem create_nextID (r : memoryRepo) (now : Time) (t : Task) :
    (r.Create now t).1.nextID = wrap64 (r.nextID + 1) := rfl

theorem create_result (r : memoryRepo) (now : Time) (t : Task) :
    (r.Create now t).2 = Except.ok (wrap64 (r.nextID + 1)) := rfl

theorem update_nextID (r : memoryRepo) (now : Time) (t : Task) :
    (r.Update now t).1.nextID = r.nextID := by
  unfold memoryRepo.Update
  cases mapGet r.tasks t.ID <;> rfl

theorem delete_nextID (r : memoryRepo) (id : Int) : (r.Delete id).1.nextID = r.nextID := by
  unfold memoryRepo.Delete
  cases mapGet r.tasks id <;> rfl

/-- The ids handed out by a sequence of calls continue the counter one by one,
as long as the counter stays within `int64`. -/
theorem createdIds_from (ops : List RepoOp) :
    ∀ r : memoryRepo, 0 ≤ r.nextID → r.nextID + (createCount ops : Int) ≤ maxInt64 →
      createdIds r ops
        = (List.range (createCount ops)).map (fun i => r.nextID + ((i : Nat) : Int) + 1) := by
  induction ops with
  | nil => intro r _ _; rfl
  | cons op ops ih =>
    intro r h0 hmax
    cases op with
    | create now t =>
      have hc : createCount (RepoOp.create now t :: ops) = createCount ops + 1 := by
        simp [createCount]
      rw [hc] at hmax ⊢
      have hw : wrap64 (r.nextID + 1) = r.nextID + 1 := by
        apply wrap64_eq_self
        · omega
        · unfold maxInt64 at hmax; push_cast at hmax; omega
      have hn : (RepoOp.next r (RepoOp.create now t)).nextID = r.nextID + 1 := by
        show (r.Create now t).1.nextID = _
        rw [create_nextID, hw]
      have hrest := ih (RepoOp.next r (RepoOp.create now t)) (by rw [hn]; omega)
        (by rw [hn]; push_cast at hmax; omega)
      show RepoOp.created r (RepoOp.create now t) ++ _ = _
      rw [hrest, hn, List.range_succ_eq_map]
      simp only [RepoOp.created, create_result, hw, List.map_cons, List.map_map,
        List.singleton_append]
      refine congrArg₂ _ (by simp) ?_
      apply List.map_congr_left
      intro i _
      simp only [Function.comp_apply]
      push_cast
      ring
    | get id =>
      have hc : createCount (RepoOp.get id :: ops) = createCount ops := by simp [createCount]
      rw [hc] at hmax ⊢
      exact ih r h0 hmax
    | update now t =>
      have hc : createCount (RepoOp.update now t :: ops) = createCount ops := by
        simp [createCount]
      rw [hc] at hmax ⊢
      have hn : (RepoOp.next r (RepoOp.update now t)).nextID = r.nextID := update_nextID r now t
      have hrest := ih (RepoOp.next r (RepoOp.update now t)) (by rw [hn]; exact h0)
        (by rw [hn]; exact hmax)
      show [] ++ createdIds (RepoOp.next r (RepoOp.update now t)) ops = _
      rw [hrest, hn]; rfl
    | delete id =>
      have hc : createCount (RepoOp.delete id :: ops) = createCount ops := by
        simp [createCount]
      rw [hc] at hmax ⊢
      have hn : (RepoOp.next r (RepoOp.delete id)).nextID = r.nextID := delete_nextID r id
      have hrest := ih (RepoOp.next r (RepoOp.delete id)) (by rw [hn]; exact h0)
        (by rw [hn]; exact hmax)
      show [] ++ createdIds (RepoOp.next r (RepoOp.delete id)) ops = _
      rw [hrest, hn]; rfl
    | list order filter =>
      have hc : createCount (RepoOp.list order filter :: ops) = createCount ops := by
        simp [createCount]
      rw [hc] at hmax ⊢
      exact ih r h0 hmax

/-- Repeated `Create` calls hand out the wrapped successors of the counter. -/
theorem createdIds_replicate (now : Time) (t : Task) (n : Nat) :
    ∀ r : memoryRepo, createdIds r (List.replicate n (RepoOp.create now t))
      = (List.range n).map (fun i => wrap64 (r.nextID + ((i : Nat) : Int) + 1)) := by
  induction n with
  | zero => intro r; rfl
  | succ n ih =>
    intro r
    rw [List.replicate_succ]
    show RepoOp.created r (RepoOp.create now t) ++
      createdIds (RepoOp.next r (RepoOp.create now t)) _ = _
    rw [ih, List.range_succ_eq_map]
    have hn : (RepoOp.next r (RepoOp.create now t)).nextID = wrap64 (r.nextID + 1) := rfl
    simp only [RepoOp.created, create_result, hn, List.map_cons, List.map_map,
      List.singleton_append]
    refine congrArg₂ _ (by simp) ?_
    apply List.map_congr_left
    intro i _
    simp only [Function.comp_apply]
    rw [add_assoc, wrap64_add_left]
    congr 1
    push_cast
    ring

/-! ## Delete -/

theorem delete_of_absent (r : memoryRepo) (id : Int) (h : mapGet r.tasks id = none) :
    r.Delete id = (r, Except.error GoError.ErrNotFound) := by
  simp [memoryRepo.Delete, h]

theorem delete_of_stored (r : memoryRepo) (id : Int) (t : Task)
    (h : mapGet r.tasks id = some t) :
    r.Delete id = (⟨mapDelete r.tasks id, r.nextID⟩, Except.ok ()) := by
  simp [memoryRepo.Delete, h]

theorem handler_delete_of_absent (r : memoryRepo) (id : Int) (h : mapGet r.tasks id = none) :
    Handler.delete r id = (r, writeErr 404 "task not found") := by
  simp [Handler.delete, TaskService.DeleteTask, delete_of_absent r id h]

/-! ## White space -/

theorem string_mk_eq_empty (l : List Char) : String.mk l = "" ↔ l = [] := by
  constructor
  · intro h
    exact congrArg String.data h
  · intro h
    rw [h]

/-- A string trims to the empty string exactly when it is empty or holds only
white space. -/
theorem trimSpace_eq_empty_iff (s : String) :
    strings.TrimSpace s = "" ↔ s.data.all unicode.IsSpace = true := by
  unfold strings.TrimSpace
  rw [string_mk_eq_empty, List.reverse_eq_nil_iff, List.dropWhile_eq_nil_iff, List.all_eq_true]
  constructor
  · intro h
    have hd : s.data.dropWhile unicode.IsSpace = [] := by
      cases hcs : s.data.dropWhile unicode.IsSpace with
      | nil => rfl
      | cons c rest =>
        have hc : unicode.IsSpace c = true := h c (by rw [hcs]; simp)
        have hhead := List.head_dropWhile_not unicode.IsSpace s.data (by rw [hcs]; simp)
        simp only [hcs, List.head_cons] at hhead
        rw [hc] at hhead
        cases hhead
    exact List.dropWhile_eq_nil_iff.1 hd
  · intro h x hx
    rw [List.dropWhile_eq_nil_iff.2 h] at hx
    simp at hx

theorem ne_empty_of_trimSpace_ne (s : String) (h : strings.TrimSpace s ≠ "") : s ≠ "" := by
  intro h0
  apply h
  rw [h0]
  decide

/-! ## Titles of stored tasks -/

theorem titles_new : NewMemoryRepo.TitlesNonEmpty := by
  intro k t h
  simp [NewMemoryRepo, mapGet] at h

theorem titles_createTask (r : memoryRepo) (h : r.TitlesNonEmpty) (now : Time)
    (title desc : String) : (TaskService.CreateTask r now title desc).1.TitlesNonEmpty := by
  by_cases ht : title = ""
  · simp only [TaskService.CreateTask, ht, if_true]
    exact h
  · rw [createTask_of_nonempty r now title desc ht]
    intro k t hget
    change mapGet (mapSet r.tasks (wrap64 (r.nextID + 1)) _) k = some t at hget
    by_cases hk : k = wrap64 (r.nextID + 1)
    · subst hk
      rw [mapGet_mapSet_self] at hget
      cases hget
      exact ht
    · rw [mapGet_mapSet_ne _ _ _ k hk] at hget
      exact h k t hget

theorem titles_updateTask (r : memoryRepo) (hk : r.KeyedByID) (h : r.TitlesNonEmpty)
    (now : Time) (id : Int) (title desc : String) (status : TaskStatus) :
    (TaskService.UpdateTask r now id title desc status).1.TitlesNonEmpty := by
  cases hold : mapGet r.tasks id with
  | none => rw [updateTask_of_absent r now id title desc status hold]; exact h
  | some old =>
    rw [updateTask_of_stored r hk now id title desc status old hold]
    intro k t hget
    change mapGet (mapSet r.tasks id _) k = some t at hget
    by_cases hkid : k = id
    · subst hkid
      rw [mapGet_mapSet_self] at hget
      cases hget
      show (if title = "" then old.Title else title) ≠ ""
      split
      · exact h k old hold
      · assumption
    · rw [mapGet_mapSet_ne _ _ _ k hkid] at hget
      exact h k t hget

theorem titles_deleteTask (r : memoryRepo) (h : r.TitlesNonEmpty) (id : Int) :
    (TaskService.DeleteTask r id).1.TitlesNonEmpty := by
  unfold TaskService.DeleteTask
  cases hold : mapGet r.tasks id with
  | none => rw [delete_of_absent r id hold]; exact h
  | some old =>
    rw [delete_of_stored r id old hold]
    intro k t hget
    change mapGet (mapDelete r.tasks id) k = some t at hget
    rw [mapGet_mapDelete] at hget
    by_cases hkid : k = id
    · simp [hkid] at hget
    · simp only [hkid, if_false] at hget
      exact h k t hget

theorem titles_serviceOps (ops : List ServiceOp) :
    ∀ r : memoryRepo, r.Inv → r.TitlesNonEmpty →
      (ops.foldl ServiceOp.next r).Inv ∧ (ops.foldl ServiceOp.next r).TitlesNonEmpty := by
  induction ops with
  | nil => intro r hi ht; exact ⟨hi, ht⟩
  | cons op rest ih =>
    intro r hi ht
    refine ih _ (inv_serviceOp r hi op) ?_
    cases op with
    | CreateTask now title desc => exact titles_createTask r ht now title desc
    | UpdateTask now id title desc status =>
      exact titles_updateTask r hi.2 ht now id title desc status
    | DeleteTask id => exact titles_deleteTask r ht id

/-! ## Reading twice -/

theorem length_sliceExpr {α : Type} (a : List α) (lo hi : Int) :
    (sliceExpr a lo hi).map List.length
      = if 0 ≤ lo ∧ lo ≤ hi ∧ hi ≤ (a.length : Int) then some (hi - lo).toNat else none := by
  unfold sliceExpr
  split
  · next h =>
    simp only [Option.map_some', List.length_take, List.length_drop, Option.some.injEq]
    omega
  · rfl

/-- `List` in terms of the slice `all`. -/
theorem list_eq_slice (r : memoryRepo) (order : List Int) (filter : ListFilter) :
    r.List order filter
      = (sliceExpr (r.matching order filter.Status)
          (if filter.Offset > ((r.matching order filter.Status).length : Int)
            then ((r.matching order filter.Status).length : Int) else filter.Offset)
          (if wrap64 ((if filter.Offset > ((r.matching order filter.Status).length : Int)
                then ((r.matching order filter.Status).length : Int) else filter.Offset)
                + filter.Limit) > ((r.matching order filter.Status).length : Int)
            then ((r.matching order filter.Status).length : Int)
            else wrap64 ((if filter.Offset > ((r.matching order filter.Status).length : Int)
                then ((r.matching order filter.Status).length : Int) else filter.Offset)
                + filter.Limit))).map
          (fun page => (page, ((r.matching order filter.Status).length : Int))) := by
  unfold memoryRepo.List
  simp only
  split <;> simp_all

/-- The number of returned tasks and the total do not depend on the order in
which `range` visits the map. -/
theorem list_sizes_order (r : memoryRepo) (o₁ o₂ : List Int) (h₁ : r.RangeOrder o₁)
    (h₂ : r.RangeOrder o₂) (filter : ListFilter) :
    (r.List o₁ filter).map (fun res => (res.1.length, res.2))
      = (r.List o₂ filter).map (fun res => (res.1.length, res.2)) := by
  have hlen : (r.matching o₁ filter.Status).length = (r.matching o₂ filter.Status).length := by
    rw [matching_length_perm r o₁ h₁, matching_length_perm r o₂ h₂]
  have key : ∀ o : List Int, (r.List o filter).map (fun res => (res.1.length, res.2))
      = ((sliceExpr (r.matching o filter.Status)
          (if filter.Offset > ((r.matching o filter.Status).length : Int)
            then ((r.matching o filter.Status).length : Int) else filter.Offset)
          (if wrap64 ((if filter.Offset > ((r.matching o filter.Status).length : Int)
                then ((r.matching o filter.Status).length : Int) else filter.Offset)
                + filter.Limit) > ((r.matching o filter.Status).length : Int)
            then ((r.matching o filter.Status).length : Int)
            else wrap64 ((if filter.Offset > ((r.matching o filter.Status).length : Int)
                then ((r.matching o filter.Status).length : Int) else filter.Offset)
                + filter.Limit))).map List.length).map
          (fun n => (n, ((r.matching o filter.Status).length : Int))) := by
    intro o
    rw [list_eq_slice, Option.map_map, Option.map_map]
    rfl
  rw [key o₁, key o₂, length_sliceExpr, length_sliceExpr, hlen]

/-! ## Stored ids -/

theorem keysInRange_new : NewMemoryRepo.KeysInRange := by
  refine ⟨le_refl _, ?_⟩
  intro k t h
  simp [NewMemoryRepo, mapGet] at h

theorem keysInRange_create (r : memoryRepo) (h : r.KeysInRange) (now : Time) (t : Task)
    (hmax : r.nextID + 1 ≤ maxInt64) : (r.Create now t).1.KeysInRange := by
  have hw : wrap64 (r.nextID + 1) = r.nextID + 1 := by
    unfold maxInt64 at hmax
    exact wrap64_eq_self (by have := h.1; omega) (by omega)
  have hn : (r.Create now t).1.nextID = r.nextID + 1 := by rw [create_nextID, hw]
  refine ⟨by rw [hn]; have := h.1; omega, ?_⟩
  intro k t' hget
  rw [hn]
  change mapGet (mapSet r.tasks (wrap64 (r.nextID + 1)) _) k = some t' at hget
  rw [hw] at hget
  by_cases hk : k = r.nextID + 1
  · have := h.1
    omega
  · rw [mapGet_mapSet_ne _ _ _ k hk] at hget
    have := h.2 k t' hget
    omega

theorem keysInRange_update (r : memoryRepo) (h : r.KeysInRange) (now : Time) (t : Task) :
    (r.Update now t).1.KeysInRange := by
  cases hold : mapGet r.tasks t.ID with
  | none => rw [update_of_absent r now t hold]; exact h
  | some old =>
    rw [update_of_stored r now t old hold]
    refine ⟨h.1, ?_⟩
    intro k t' hget
    change mapGet (mapSet r.tasks t.ID _) k = some t' at hget
    by_cases hk : k = t.ID
    · rw [hk]
      exact h.2 t.ID old hold
    · rw [mapGet_mapSet_ne _ _ _ k hk] at hget
      exact h.2 k t' hget

theorem keysInRange_delete (r : memoryRepo) (h : r.KeysInRange) (id : Int) :
    (r.Delete id).1.KeysInRange := by
  cases hold : mapGet r.tasks id with
  | none => rw [delete_of_absent r id hold]; exact h
  | some old =>
    rw [delete_of_stored r id old hold]
    refine ⟨h.1, ?_⟩
    intro k t' hget
    change mapGet (mapDelete r.tasks id) k = some t' at hget
    rw [mapGet_mapDelete] at hget
    by_cases hk : k = id
    · simp [hk] at hget
    · simp only [hk, if_false] at hget
      exact h.2 k t' hget

/-- As long as the counter stays within `int64`, the keys stay between 1 and
the counter. -/
theorem keysInRange_runOps (ops : List RepoOp) :
    ∀ r : memoryRepo, r.KeysInRange → r.nextID + (createCount ops : Int) ≤ maxInt64 →
      (runOps r ops).KeysInRange := by
  induction ops with
  | nil => intro r h _; exact h
  | cons op ops ih =>
    intro r h hmax
    show (runOps (RepoOp.next r op) ops).KeysInRange
    cases op with
    | create now t =>
      have hc : createCount (RepoOp.create now t :: ops) = createCount ops + 1 := by
        simp [createCount]
      rw [hc] at hmax
      push_cast at hmax
      have hstep : r.nextID + 1 ≤ maxInt64 := by omega
      have hw : wrap64 (r.nextID + 1) = r.nextID + 1 := by
        unfold maxInt64 at hstep
        exact wrap64_eq_self (by have := h.1; omega) (by omega)
      refine ih _ (keysInRange_create r h now t hstep) ?_
      show (r.Create now t).1.nextID + _ ≤ _
      rw [create_nextID, hw]
      omega
    | get id =>
      have hc : createCount (RepoOp.get id :: ops) = createCount ops := by simp [createCount]
      rw [hc] at hmax
      exact ih r h hmax
    | update now t =>
      have hc : createCount (RepoOp.update now t :: ops) = createCount ops := by
        simp [createCount]
      rw [hc] at hmax
      refine ih _ (keysInRange_update r h now t) ?_
      show (r.Update now t).1.nextID + _ ≤ _
      rw [update_nextID]
      exact hmax
    | delete id =>
      have hc : createCount (RepoOp.delete id :: ops) = createCount ops := by
        simp [createCount]
      rw [hc] at hmax
      refine ih _ (keysInRange_delete r h id) ?_
      show (r.Delete id).1.nextID + _ ≤ _
      rw [delete_nextID]
      exact hmax
    | list order filter =>
      have hc : createCount (RepoOp.list order filter :: ops) = createCount ops := by
        simp [createCount]
      rw [hc] at hmax
      exact ih r h hmax

/-- `Update` keeps the id and the created-at of every stored task. -/
theorem update_keeps_id (r : memoryRepo) (now : Time) (u : Task) (k : Int) (old : Task)
    (h : mapGet r.tasks k = some old) :
    ∃ new, mapGet (r.Update now u).1.tasks k = some new ∧ new.ID = old.ID ∧
      new.CreatedAt = old.CreatedAt := by
  cases hu : mapGet r.tasks u.ID with
  | none => rw [update_of_absent r now u hu]; exact ⟨old, h, rfl, rfl⟩
  | some e =>
    rw [update_of_stored r now u e hu]
    by_cases hk : k = u.ID
    · subst hk
      rw [h] at hu
      cases hu
      exact ⟨_, mapGet_mapSet_self _ _ _, rfl, rfl⟩
    · exact ⟨old, by rw [← h]; exact mapGet_mapSet_ne _ _ _ k hk, rfl, rfl⟩

/-- The state after `UpdateTask` is the state before it or the state after an
`Update`. -/
theorem updateTask_state (r : memoryRepo) (now : Time) (id : Int) (title desc : String)
    (status : TaskStatus) :
    (TaskService.UpdateTask r now id title desc status).1 = r ∨
      ∃ u, (TaskService.UpdateTask r now id title desc status).1 = (r.Update now u).1 := by
  unfold TaskService.UpdateTask
  cases r.Get id with
  | error err => exact Or.inl rfl
  | ok t =>
    right
    refine ⟨{ (if title ≠ "" then { t with Title := title } else t) with
              Description := desc, Status := status }, ?_⟩
    simp only
    split <;> simp_all

/-- The counter after `n` calls of `Create`. -/
theorem runOps_replicate_nextID (now : Time) (t : Task) (n : Nat) :
    ∀ r : memoryRepo, (runOps r (List.replicate n (RepoOp.create now t))).nextID
      = wrap64 (r.nextID + (n : Int)) ∨ n = 0 := by
  induction n with
  | zero => intro r; exact Or.inr rfl
  | succ n ih =>
    intro r
    left
    rw [List.replicate_succ]
    show (runOps (r.Create now t).1 (List.replicate n (RepoOp.create now t))).nextID = _
    rcases ih (r.Create now t).1 with h | h
    · rw [h, create_nextID, wrap64_add_left]
      congr 1
      push_cast
      ring
    · subst h
      show (r.Create now t).1.nextID = _
      rw [create_nextID]
      congr 1

/-- The last of `n + 1` calls of `Create` stores its task under the wrapped
successor of the counter before it. -/
theorem runOps_replicate_last (now : Time) (t : Task) (n : Nat) (r : memoryRepo) :
    (runOps r (List.replicate (n + 1) (RepoOp.create now t))).Get
        (wrap64 ((runOps r (List.replicate n (RepoOp.create now t))).nextID + 1))
      = Except.ok
          { t with ID := wrap64 ((runOps r (List.replicate n (RepoOp.create now t))).nextID + 1),
                   CreatedAt := now, UpdatedAt := now } := by
  rw [List.replicate_succ']
  unfold runOps
  rw [List.foldl_append]
  show (((List.foldl RepoOp.next r (List.replicate n (RepoOp.create now t))).Create now t).1).Get
    _ = _
  simp [memoryRepo.Create, memoryRepo.Get, mapGet_mapSet_self]

/-! ## Pages -/

/-- `List` with a non-negative offset and limit whose sum with the total stays
within `int`: the page is `all[offset : offset + limit]` cut at the end of
`all`, and the call does not panic. -/
theorem list_of_nonneg (r : memoryRepo) (order : List Int) (filter : ListFilter)
    (h0 : 0 ≤ filter.Offset) (hl : 0 ≤ filter.Limit)
    (hmax : min filter.Offset ((r.matching order filter.Status).length : Int) + filter.Limit
      ≤ maxInt64) :
    r.List order filter
      = some (((r.matching order filter.Status).drop filter.Offset.toNat).take
          filter.Limit.toNat, ((r.matching order filter.Status).length : Int)) := by
  rw [list_eq_slice]
  generalize r.matching order filter.Status = a at hmax ⊢
  obtain ⟨st, o, l⟩ := filter
  simp only at h0 hl hmax ⊢
  unfold maxInt64 at hmax
  by_cases hgt : o > (a.length : Int)
  · have hmin : min o (a.length : Int) = a.length := min_eq_right (le_of_lt hgt)
    rw [hmin] at hmax
    simp only [hgt, if_true]
    rw [wrap64_eq_self (by omega) (by omega)]
    have hdrop : a.drop o.toNat = [] := List.drop_eq_nil_of_le (by omega)
    have hdrop' : a.drop ((a.length : Int)).toNat = [] := List.drop_eq_nil_of_le (by omega)
    unfold sliceExpr
    split
    · split
      · simp only [Option.map_some', hdrop, hdrop', List.take_nil]
      · next hc => exact absurd ⟨by omega, by omega, le_refl _⟩ hc
    · split
      · simp only [Option.map_some', hdrop, hdrop', List.take_nil]
      · next hc => exact absurd ⟨by omega, by omega, by omega⟩ hc
  · have hmin : min o (a.length : Int) = o := min_eq_left (by omega)
    rw [hmin] at hmax
    simp only [hgt, if_false]
    rw [wrap64_eq_self (by omega) (by omega)]
    unfold sliceExpr
    split
    · next hover =>
      split
      · simp only [Option.map_some', Option.some.injEq, Prod.mk.injEq, and_true]
        rw [List.take_eq_take, List.length_drop]
        omega
      · next hc => exact absurd ⟨h0, by omega, le_refl _⟩ hc
    · next hover =>
      split
      · simp only [Option.map_some', Option.some.injEq, Prod.mk.injEq, and_true]
        rw [List.take_eq_take, List.length_drop]
        omega
      · next hc => exact absurd ⟨h0, by omega, by omega⟩ hc

/-- `ListTasks` for a page and a size that are at least 1, when the offset and
the end of the page stay within `int`. -/
theorem listTasks_of_pos (r : memoryRepo) (order : List Int) (page size : Int)
    (status : Option TaskStatus) (hp : 1 ≤ page) (hs : 1 ≤ size)
    (hrep : (page - 1) * size ≤ maxInt64)
    (hmax : min ((page - 1) * size) ((r.matching order status).length : Int) + size
      ≤ maxInt64) :
    TaskService.ListTasks r order page size status
      = some (((r.matching order status).drop ((page - 1) * size).toNat).take size.toNat,
          ((r.matching order status).length : Int)) := by
  have h0 : 0 ≤ (page - 1) * size := mul_nonneg (by omega) (by omega)
  have hw : wrap64 ((page - 1) * size) = (page - 1) * size := by
    unfold maxInt64 at hrep
    exact wrap64_eq_self (by omega) (by omega)
  have hpage : ¬ page < 1 := by omega
  have hsize : ¬ size < 1 := by omega
  simp only [TaskService.ListTasks, hpage, hsize, if_false, hw]
  exact list_of_nonneg r order ⟨status, (page - 1) * size, size⟩ h0 (by show 0 ≤ size; omega)
    hmax

/-- Cutting a list into `n` consecutive pieces of length `s` and joining them
gives the list back, when `n * s` reaches its length. -/
theorem pages_cover {α : Type} (s : Nat) (n : Nat) :
    ∀ l : List α, l.length ≤ n * s →
      (List.range n).flatMap (fun i => (l.drop (i * s)).take s) = l := by
  induction n with
  | zero =>
    intro l hl
    have : l = [] := List.eq_nil_of_length_eq_zero (by omega)
    simp [this]
  | succ n ih =>
    intro l hl
    rw [List.range_succ_eq_map, List.flatMap_cons, List.flatMap_map]
    have hrest : (List.range n).flatMap (fun i => (l.drop (Nat.succ i * s)).take s)
        = l.drop s := by
      have hfun : (fun i => (l.drop (Nat.succ i * s)).take s)
          = fun i => ((l.drop s).drop (i * s)).take s := by
        funext i
        rw [List.drop_drop]
        congr 2
        rw [Nat.succ_mul]
        omega
      rw [hfun]
      apply ih
      rw [List.length_drop]
      rw [Nat.succ_mul] at hl
      omega
    have hcomp : ((fun i => (l.drop (i * s)).take s) ∘ Nat.succ)
        = fun i => (l.drop (Nat.succ i * s)).take s := rfl
    simp only [hcomp, hrest, Nat.zero_mul, List.drop_zero]
    exact List.take_append_drop s l

/-- What does hold of the pages of `ListTasks`, for a size `s ≥ 1` and fewer
than `2^62` matching tasks: the pages 1 to `⌈total / s⌉` are returned without a
panic and joined they are the sequence of matching tasks; a later page is empty
when its offset `(page - 1) * s` and `total + s` stay within `int`. -/
theorem listTasks_pages_cover (r : memoryRepo) (order : List Int)
    (status : Option TaskStatus) (s : Nat) (hs : 1 ≤ s) (hsmax : (s : Int) ≤ maxInt64)
    (hmem : ((r.matching order status).length : Int) < 2 ^ 62) :
    (∀ i : Nat, i < ((r.matching order status).length + s - 1) / s →
      TaskService.ListTasks r order ((i : Int) + 1) (s : Int) status
        = some (((r.matching order status).drop (i * s)).take s,
            ((r.matching order status).length : Int))) ∧
    (List.range (((r.matching order status).length + s - 1) / s)).flatMap
        (fun i => ((r.matching order status).drop (i * s)).take s)
      = r.matching order status ∧
    (∀ page : Int, ((((r.matching order status).length + s - 1) / s : Nat) : Int) < page →
      (page - 1) * (s : Int) ≤ maxInt64 →
      ((r.matching order status).length : Int) + (s : Int) ≤ maxInt64 →
      TaskService.ListTasks r order page (s : Int) status
        = some ([], ((r.matching order status).length : Int))) := by
  generalize hlen : (r.matching order status).length = len at hmem ⊢
  have hdiv : len ≤ (len + s - 1) / s * s := by
    have h := Nat.lt_mul_div_succ (len + s - 1) (by omega : 0 < s)
    rw [Nat.mul_succ, Nat.mul_comm] at h
    omega
  have hbelow : ∀ i : Nat, i < (len + s - 1) / s → i * s < len := by
    intro i hi
    have h : (i + 1) * s ≤ len + s - 1 := (Nat.le_div_iff_mul_le (by omega : 0 < s)).1 hi
    rw [Nat.succ_mul] at h
    omega
  generalize (len + s - 1) / s = n at hdiv hbelow ⊢
  refine ⟨?_, ?_, ?_⟩
  · intro i hi
    have hlt : i * s < len := hbelow i hi
    have hcast : (((i : Int) + 1 - 1) * (s : Int)) = ((i * s : Nat) : Int) := by
      push_cast
      ring
    have hsi : i = 0 ∨ s ≤ i * s := by
      rcases Nat.eq_zero_or_pos i with h | h
      · exact Or.inl h
      · exact Or.inr (Nat.le_mul_of_pos_left s h)
    have hl := listTasks_of_pos r order ((i : Int) + 1) (s : Int) status (by omega) (by omega)
      (by rw [hcast]; unfold maxInt64; omega)
      (by
        rw [hcast, hlen]
        unfold maxInt64 at hsmax ⊢
        rcases hsi with h | h
        · subst h
          simp only [Nat.zero_mul, Nat.cast_zero]
          have := min_le_left (0 : Int) (len : Int)
          omega
        · have := min_le_left ((i * s : Nat) : Int) (len : Int)
          omega)
    rw [hcast, hlen] at hl
    rw [hl]
    simp only [Int.toNat_ofNat]
  · rw [← hlen] at hdiv
    exact pages_cover s n (r.matching order status) hdiv
  · intro page hpage hrep hmax
    have hp1 : 1 ≤ page := by omega
    have hoff : (len : Int) ≤ (page - 1) * (s : Int) := by
      have h1 : (n : Int) ≤ page - 1 := by omega
      have h2 : ((n * s : Nat) : Int) ≤ (page - 1) * (s : Int) := by
        push_cast
        exact mul_le_mul_of_nonneg_right h1 (by omega)
      have h3 : (len : Int) ≤ ((n * s : Nat) : Int) := by exact_mod_cast hdiv
      omega
    have hl := listTasks_of_pos r order page (s : Int) status hp1 (by omega) hrep
      (by
        rw [hlen]
        have := min_le_right ((page - 1) * (s : Int)) (len : Int)
        omega)
    rw [hl, hlen]
    have hnil : (r.matching order status).drop ((page - 1) * (s : Int)).toNat = [] :=
      List.drop_eq_nil_of_le (by rw [hlen]; omega)
    rw [hnil]
    simp

/-! ## Properties of the specification -/

/-- C1 (amended): starting from a fresh repository, for every sequence of
Create/Get/Update/Delete/List calls that holds at most `2^63 - 1` calls of
`Create`, the ids returned by the `Create` calls are `1, 2, ..., n` in call
order (the n-th call returns id n), so every returned id is strictly greater
than every id returned before it, deletions in between or not. -/
theorem create_ids_sequential (ops : List RepoOp)
    (h : (createCount ops : Int) ≤ maxInt64) :
    createdIds NewMemoryRepo ops
        = (List.range (createCount ops)).map (fun i => ((i : Nat) : Int) + 1) ∧
      (createdIds NewMemoryRepo ops).Pairwise (fun a b => a < b) := by
  have hids := createdIds_from ops NewMemoryRepo (le_refl _)
    (by show (0 : Int) + _ ≤ _; rw [zero_add]; exact h)
  have hfun : (fun i : Nat => NewMemoryRepo.nextID + (i : Int) + 1)
      = fun i : Nat => (i : Int) + 1 := by
    funext i
    show (0 : Int) + _ + 1 = _
    rw [zero_add]
  rw [hfun] at hids
  refine ⟨hids, ?_⟩
  rw [hids, List.pairwise_map]
  refine List.Pairwise.imp ?_ (List.pairwise_lt_range _)
  intro a b hab
  omega

/-- C1, witness: three `Create` calls with a `Delete`, a `Get` and a `List` in
between return the ids 1, 2, 3. -/
theorem create_ids_sequential_witness :
    createdIds NewMemoryRepo
      [RepoOp.create 1 ⟨0, "a", "", StatusPending, 0, 0⟩, RepoOp.delete 1,
       RepoOp.create 2 ⟨0, "b", "", StatusPending, 0, 0⟩, RepoOp.get 2,
       RepoOp.list [2] ⟨none, 0, 10⟩,
       RepoOp.create 3 ⟨0, "c", "", StatusPending, 0, 0⟩] = [1, 2, 3] :=
  (create_ids_sequential
    [RepoOp.create 1 ⟨0, "a", "", StatusPending, 0, 0⟩, RepoOp.delete 1,
     RepoOp.create 2 ⟨0, "b", "", StatusPending, 0, 0⟩, RepoOp.get 2,
     RepoOp.list [2] ⟨none, 0, 10⟩,
     RepoOp.create 3 ⟨0, "c", "", StatusPending, 0, 0⟩] (by decide)).1.trans (by decide)

/-- C1, counterexample: in a sequence of `2^63` calls of `Create` on a fresh
repository the call number `2^63 - 1` returns the id `2^63 - 1` and the call
number `2^63` returns the id `-2^63`: not the id `2^63`, and smaller than the
id returned before it. -/
theorem create_ids_wrap :
    (createdIds NewMemoryRepo
        (List.replicate (2 ^ 63) (RepoOp.create 0 ⟨0, "a", "", StatusPending, 0, 0⟩)))[2 ^ 63 - 2]?
      = some (2 ^ 63 - 1) ∧
    (createdIds NewMemoryRepo
        (List.replicate (2 ^ 63) (RepoOp.create 0 ⟨0, "a", "", StatusPending, 0, 0⟩)))[2 ^ 63 - 1]?
      = some (-(2 ^ 63)) := by
  rw [createdIds_replicate]
  constructor
  · rw [List.getElem?_map, List.getElem?_range (by decide)]
    decide
  · rw [List.getElem?_map, List.getElem?_range (by decide)]
    decide

/-- C2: for every repository state, every non-empty title and every
description, `CreateTask` succeeds with a task that carries the given title and
description, has status Pending and equal created-at and updated-at; `GetTask`
on its id, in the state after the call, succeeds and returns that same task. -/
theorem createTask_roundtrip (r : memoryRepo) (now : Time) (title desc : String)
    (h : title ≠ "") :
    ∃ t, (TaskService.CreateTask r now title desc).2 = Except.ok t ∧
      t.Title = title ∧ t.Description = desc ∧ t.Status = StatusPending ∧
      t.CreatedAt = t.UpdatedAt ∧
      TaskService.GetTask (TaskService.CreateTask r now title desc).1 t.ID = Except.ok t := by
  rw [createTask_of_nonempty r now title desc h]
  refine ⟨_, rfl, rfl, rfl, rfl, rfl, ?_⟩
  simp [TaskService.GetTask, memoryRepo.Get, mapGet_mapSet_self]

/-- C2, witness: creating "a" in a repository that already holds a task. -/
theorem createTask_roundtrip_witness :
    ∃ t, (TaskService.CreateTask ⟨[(1, ⟨1, "x", "", "Completed", 3, 4⟩)], 1⟩ 9 "a" "d").2
        = Except.ok t ∧
      t.Title = "a" ∧ t.Description = "d" ∧ t.Status = StatusPending ∧
      t.CreatedAt = t.UpdatedAt ∧
      TaskService.GetTask
        (TaskService.CreateTask ⟨[(1, ⟨1, "x", "", "Completed", 3, 4⟩)], 1⟩ 9 "a" "d").1 t.ID
        = Except.ok t :=
  createTask_roundtrip ⟨[(1, ⟨1, "x", "", "Completed", 3, 4⟩)], 1⟩ 9 "a" "d" (by decide)

/-- C3 (amended): for the empty title `CreateTask` fails with the error
"title required", assigns no id and leaves the repository unchanged; for every
other title, a title of white space included, it succeeds. -/
theorem createTask_title_check (r : memoryRepo) (now : Time) (title desc : String) :
    (title = "" →
      TaskService.CreateTask r now title desc
        = (r, Except.error (GoError.Errorf "title required"))) ∧
    (title ≠ "" → ∃ t, (TaskService.CreateTask r now title desc).2 = Except.ok t) := by
  constructor
  · intro h
    simp [TaskService.CreateTask, h]
  · intro h
    rw [createTask_of_nonempty r now title desc h]
    exact ⟨_, rfl⟩

/-- C3, witness: the empty title is refused and the title "a" is accepted. -/
theorem createTask_title_check_witness :
    TaskService.CreateTask NewMemoryRepo 5 "" "d"
        = (NewMemoryRepo, Except.error (GoError.Errorf "title required")) ∧
    ∃ t, (TaskService.CreateTask NewMemoryRepo 5 "a" "d").2 = Except.ok t :=
  ⟨(createTask_title_check NewMemoryRepo 5 "" "d").1 rfl,
   (createTask_title_check NewMemoryRepo 5 "a" "d").2 (by decide)⟩

/-- C3, counterexample: the title " " is empty after trimming, yet `CreateTask`
succeeds, assigns id 1 and stores the task. -/
theorem createTask_blank_title :
    strings.TrimSpace " " = "" ∧
    TaskService.CreateTask NewMemoryRepo 5 " " "d"
      = (⟨[(1, ⟨1, " ", "d", "Pending", 5, 5⟩)], 1⟩,
         Except.ok ⟨1, " ", "d", "Pending", 5, 5⟩) := by
  decide

/-- C4, the code at the failing input: after `POST /tasks` with title "a", the
request `PUT /tasks/1` with body `{"status":"Bogus"}` is answered 200 and the
stored status of task 1 is "Bogus", which is none of the four enumerated
values; `Service.UpdateTask` with that status stores it as well. -/
theorem update_stores_unlisted_status :
    Handler.update (Handler.create NewMemoryRepo 1 (some ⟨"a", ""⟩)).1 2 1
        (some ⟨none, none, some "Bogus"⟩)
      = (⟨[(1, ⟨1, "a", "", "Bogus", 1, 2⟩)], 1⟩,
         ⟨200, Body.task ⟨1, "a", "", "Bogus", 1, 2⟩⟩) ∧
    (List.foldl HandlerOp.next NewMemoryRepo
        [HandlerOp.create 1 (some ⟨"a", ""⟩),
         HandlerOp.update 2 1 (some ⟨none, none, some "Bogus"⟩)]).Get 1
      = Except.ok ⟨1, "a", "", "Bogus", 1, 2⟩ ∧
    (List.foldl ServiceOp.next NewMemoryRepo
        [ServiceOp.CreateTask 1 "a" "", ServiceOp.UpdateTask 2 1 "" "" "Bogus"]).Get 1
      = Except.ok ⟨1, "a", "", "Bogus", 1, 2⟩ ∧
    ¬ TaskStatus.Enumerated "Bogus" := by
  refine ⟨by decide, by decide, by decide, ?_⟩
  unfold TaskStatus.Enumerated
  decide

/-- C5, the code at the failing input: on a repository holding one task, `List`
with offset -1 and limit 1 panics in its slice expression, and so does `List`
with offset 0 and limit -1, and with the offset `-2^63` that `ListTasks` passes
for page `2^62 + 1` and size 2; none returns a clamped, empty page. -/
theorem list_negative_bounds_panic :
    (NewMemoryRepo.Create 1 ⟨0, "a", "", StatusPending, 0, 0⟩).1.List [1] ⟨none, -1, 1⟩ = none ∧
    (NewMemoryRepo.Create 1 ⟨0, "a", "", StatusPending, 0, 0⟩).1.List [1] ⟨none, 0, -1⟩ = none ∧
    (NewMemoryRepo.Create 1 ⟨0, "a", "", StatusPending, 0, 0⟩).1.List [1]
        ⟨none, wrap64 ((2 ^ 62 + 1 - 1) * 2), 2⟩ = none ∧
    NewMemoryRepo.List [] ⟨none, -1, 1⟩ = none := by
  decide

/-- C6, the code at the failing input: with page `2^62 + 1` (at least 1, an
`int`) and size 2 the offset `(page - 1) * size` wraps to `-2^63` and
`ListTasks` panics; with size 4 it wraps to 0 and `ListTasks` returns the first
page, not an empty one, although one task is stored. -/
theorem listTasks_offset_wraps :
    (1 : Int) ≤ 2 ^ 62 + 1 ∧ (2 ^ 62 + 1 : Int) ≤ maxInt64 ∧
    wrap64 ((2 ^ 62 + 1 - 1) * 2) = minInt64 ∧
    TaskService.ListTasks (NewMemoryRepo.Create 1 ⟨0, "a", "", StatusPending, 0, 0⟩).1 [1]
        (2 ^ 62 + 1) 2 none = none ∧
    TaskService.ListTasks (NewMemoryRepo.Create 1 ⟨0, "a", "", StatusPending, 0, 0⟩).1 [1]
        (2 ^ 62 + 1) 4 none = some ([⟨1, "a", "", "Pending", 1, 1⟩], 1) := by
  decide

/-- C7: for every repository state (a map), every order in which `range`
visits it, every status `s` and every offset and limit for which `List`
succeeds: with the status filter `s`, every returned task is a stored task with
status `s` and the returned total is the number of stored tasks with status
`s`; with no status filter the total is the number of stored tasks. -/
theorem list_status_filter (r : memoryRepo) (hm : r.IsMap) (order : List Int)
    (ho : r.RangeOrder order) (offset limit : Int) :
    (∀ s page total, r.List order ⟨some s, offset, limit⟩ = some (page, total) →
      (∀ t, t ∈ page → t.Status = s ∧ ∃ k, mapGet r.tasks k = some t) ∧
      total = ((r.tasks.filter (fun e => decide (e.2.Status = s))).length : Int)) ∧
    (∀ page total, r.List order ⟨none, offset, limit⟩ = some (page, total) →
      total = (r.tasks.length : Int)) := by
  constructor
  · intro s page total h
    obtain ⟨htot, hsub⟩ := list_eq_some r order _ page total h
    constructor
    · intro t ht
      obtain ⟨⟨k, _, hk⟩, hst⟩ := mem_matching r order (some s) t (hsub t ht)
      exact ⟨hst s rfl, k, hk⟩
    · rw [htot]
      exact congrArg Nat.cast (matching_length_some r hm order ho s)
  · intro page total h
    obtain ⟨htot, _⟩ := list_eq_some r order _ page total h
    rw [htot]
    exact congrArg Nat.cast (matching_length_none r hm order ho)

/-- C7, witness: the seeded repository, visited in the order 3, 1, 2, listed
with status Completed, offset 0 and limit 10: the total is the number of stored
Completed tasks, and without the filter it is the number of stored tasks. -/
theorem list_status_filter_witness :
    (1 : Int)
      = (((seed NewMemoryRepo 1 2 3).tasks.filter
          (fun e => decide (e.2.Status = StatusCompleted))).length : Int) ∧
    (3 : Int) = ((seed NewMemoryRepo 1 2 3).tasks.length : Int) :=
  ⟨((list_status_filter (seed NewMemoryRepo 1 2 3) (by unfold memoryRepo.IsMap; decide)
      [3, 1, 2] (by unfold memoryRepo.RangeOrder; decide) 0 10).1 StatusCompleted
      [⟨3, "Retro meeting", "Sprint retro", "Completed", 3, 3⟩] 1 (by decide)).2,
   (list_status_filter (seed NewMemoryRepo 1 2 3) (by unfold memoryRepo.IsMap; decide)
      [3, 1, 2] (by unfold memoryRepo.RangeOrder; decide) 0 10).2
      [⟨3, "Retro meeting", "Sprint retro", "Completed", 3, 3⟩,
       ⟨1, "Buy groceries", "Milk, eggs, bread", "Pending", 1, 1⟩,
       ⟨2, "Deploy release", "Deploy v1.2 to staging", "InProgress", 2, 2⟩] 3 (by decide)⟩

/-- C8: for every repository state (each task stored under its own id) and
every id: when no task is stored under the id, `UpdateTask` fails with
`ErrNotFound` and the repository is unchanged; otherwise it succeeds, the task
it returns is the one stored under the id afterwards, its title is the supplied
title when that is non-empty and the prior title when it is empty, its
description and status are the supplied ones, and its id and created-at are the
prior ones. -/
theorem updateTask_spec (r : memoryRepo) (hk : r.KeyedByID) (now : Time) (id : Int)
    (title desc : String) (status : TaskStatus) :
    (mapGet r.tasks id = none →
      TaskService.UpdateTask r now id title desc status
        = (r, Except.error GoError.ErrNotFound)) ∧
    (∀ old, mapGet r.tasks id = some old →
      ∃ t, (TaskService.UpdateTask r now id title desc status).2 = Except.ok t ∧
        (TaskService.UpdateTask r now id title desc status).1.Get id = Except.ok t ∧
        t.Title = (if title = "" then old.Title else title) ∧
        t.Description = desc ∧ t.Status = status ∧
        t.ID = old.ID ∧ t.CreatedAt = old.CreatedAt) := by
  refine ⟨updateTask_of_absent r now id title desc status, ?_⟩
  intro old h
  rw [updateTask_of_stored r hk now id title desc status old h]
  exact ⟨_, rfl, by simp [memoryRepo.Get, mapGet_mapSet_self], rfl, rfl, rfl, rfl, rfl⟩

/-- C8, witness: on a repository holding task 1, updating id 2 fails with
`ErrNotFound` and changes nothing, and updating id 1 with an empty title keeps
the title and replaces description and status. -/
theorem updateTask_spec_witness :
    TaskService.UpdateTask ⟨[(1, ⟨1, "x", "d", "Pending", 3, 3⟩)], 1⟩ 5 2 "y" "e" "Completed"
      = (⟨[(1, ⟨1, "x", "d", "Pending", 3, 3⟩)], 1⟩, Except.error GoError.ErrNotFound) ∧
    ∃ t, (TaskService.UpdateTask ⟨[(1, ⟨1, "x", "d", "Pending", 3, 3⟩)], 1⟩ 5 1 "" "" "Completed").2
        = Except.ok t ∧
      (TaskService.UpdateTask ⟨[(1, ⟨1, "x", "d", "Pending", 3, 3⟩)], 1⟩ 5 1 "" ""
        "Completed").1.Get 1 = Except.ok t ∧
      t.Title = "x" ∧ t.Description = "" ∧ t.Status = "Completed" ∧ t.ID = 1 ∧
      t.CreatedAt = 3 :=
  ⟨(updateTask_spec ⟨[(1, ⟨1, "x", "d", "Pending", 3, 3⟩)], 1⟩
      (keyedByID_of_all _ _ (by decide)) 5 2 "y" "e" "Completed").1 (by decide),
   (updateTask_spec ⟨[(1, ⟨1, "x", "d", "Pending", 3, 3⟩)], 1⟩
      (keyedByID_of_all _ _ (by decide)) 5 1 "" "" "Completed").2
      ⟨1, "x", "d", "Pending", 3, 3⟩ (by decide)⟩

/-- C9: for every task stored under its id and every decoded update request,
after `Handler.update` the task is still stored and each of title, description
and status that the request leaves out has the value that `GetTask` returned
before the call; a request with only a status leaves title and description as
they were, stores the supplied status and is answered 200 with that task. -/
theorem handler_update_keeps_absent (r : memoryRepo) (hk : r.KeyedByID) (now : Time)
    (id : Int) (req : updateReq) (cur : Task)
    (hcur : TaskService.GetTask r id = Except.ok cur) :
    ∃ t, TaskService.GetTask (Handler.update r now id (some req)).1 id = Except.ok t ∧
      (req.Title = none → t.Title = cur.Title) ∧
      (req.Description = none → t.Description = cur.Description) ∧
      (req.Status = none → t.Status = cur.Status) ∧
      (∀ s, req = ⟨none, none, some s⟩ →
        t.Title = cur.Title ∧ t.Description = cur.Description ∧ t.Status = s ∧
        (Handler.update r now id (some req)).2 = ⟨200, Body.task t⟩) := by
  have h : mapGet r.tasks id = some cur := (get_eq_ok_iff r id cur).1 hcur
  rcases handler_update_of_stored r hk now id req cur h with ⟨⟨title, ht, _⟩, hres⟩ | ⟨_, hres⟩
  · rw [hres]
    refine ⟨cur, hcur, fun _ => rfl, fun _ => rfl, fun _ => rfl, ?_⟩
    intro s hs
    rw [hs] at ht
    cases ht
  · rw [hres]
    simp only [TaskService.GetTask, memoryRepo.Get, mapGet_mapSet_self]
    refine ⟨_, rfl, ?_, ?_, ?_, ?_⟩
    · intro h0; simp [h0]
    · intro h0; simp [h0]
    · intro h0; simp [h0]
    · intro s hs
      subst hs
      simp

/-- C9, witness: `PUT /tasks/1` with body `{"status":"Completed"}` on a
repository holding task 1. -/
theorem handler_update_keeps_absent_witness :
    ∃ t, TaskService.GetTask
        (Handler.update ⟨[(1, ⟨1, "x", "d", "Pending", 3, 3⟩)], 1⟩ 5 1
          (some ⟨none, none, some "Completed"⟩)).1 1 = Except.ok t ∧
      t.Title = "x" ∧ t.Description = "d" ∧ t.Status = "Completed" ∧
      (Handler.update ⟨[(1, ⟨1, "x", "d", "Pending", 3, 3⟩)], 1⟩ 5 1
          (some ⟨none, none, some "Completed"⟩)).2 = ⟨200, Body.task t⟩ := by
  obtain ⟨t, hget, _, _, _, hall⟩ :=
    handler_update_keeps_absent ⟨[(1, ⟨1, "x", "d", "Pending", 3, 3⟩)], 1⟩
      (keyedByID_of_all _ _ (by decide)) 5 1 ⟨none, none, some "Completed"⟩
      ⟨1, "x", "d", "Pending", 3, 3⟩ (by decide)
  exact ⟨t, hget, hall "Completed" rfl⟩

/-- C10: for every repository state and every task `t`: when `t.ID` is not
stored, `Update` fails with `ErrNotFound` and the repository is unchanged;
otherwise it succeeds, the task stored under `t.ID` has the title, description
and status of `t` and its former id and created-at, the set of keys, every task
under another key and the next-id counter are unchanged. -/
theorem update_frame (r : memoryRepo) (now : Time) (t : Task) :
    (mapGet r.tasks t.ID = none → r.Update now t = (r, Except.error GoError.ErrNotFound)) ∧
    (∀ old, mapGet r.tasks t.ID = some old →
      (r.Update now t).2 = Except.ok () ∧
      (∃ new, (r.Update now t).1.Get t.ID = Except.ok new ∧
        new.Title = t.Title ∧ new.Description = t.Description ∧ new.Status = t.Status ∧
        new.ID = old.ID ∧ new.CreatedAt = old.CreatedAt) ∧
      (∀ k, k ≠ t.ID → (r.Update now t).1.Get k = r.Get k) ∧
      (r.Update now t).1.tasks.map Prod.fst = r.tasks.map Prod.fst ∧
      (r.Update now t).1.nextID = r.nextID) := by
  refine ⟨update_of_absent r now t, ?_⟩
  intro old h
  rw [update_of_stored r now t old h]
  refine ⟨rfl, ?_, ?_, ?_, rfl⟩
  · simp only [memoryRepo.Get, mapGet_mapSet_self]
    exact ⟨_, rfl, rfl, rfl, rfl, rfl, rfl⟩
  · intro k hne
    simp [memoryRepo.Get, mapGet_mapSet_ne _ _ _ k hne]
  · exact mapSet_keys_of_stored _ _ _ old h

/-- C10, witness: on a repository holding tasks 1 and 2, `Update` of a task
with id 3 fails and changes nothing, and `Update` of a task with id 1 succeeds,
leaves task 2, the keys and the counter as they were. -/
theorem update_frame_witness :
    (⟨[(1, ⟨1, "x", "d", "Pending", 3, 3⟩), (2, ⟨2, "y", "", "Pending", 4, 4⟩)], 2⟩ :
        memoryRepo).Update 5 ⟨3, "z", "e", "Completed", 0, 0⟩
      = (⟨[(1, ⟨1, "x", "d", "Pending", 3, 3⟩), (2, ⟨2, "y", "", "Pending", 4, 4⟩)], 2⟩,
          Except.error GoError.ErrNotFound) ∧
    ((⟨[(1, ⟨1, "x", "d", "Pending", 3, 3⟩), (2, ⟨2, "y", "", "Pending", 4, 4⟩)], 2⟩ :
        memoryRepo).Update 5 ⟨1, "z", "e", "Completed", 0, 0⟩).2 = Except.ok () ∧
    ((⟨[(1, ⟨1, "x", "d", "Pending", 3, 3⟩), (2, ⟨2, "y", "", "Pending", 4, 4⟩)], 2⟩ :
        memoryRepo).Update 5 ⟨1, "z", "e", "Completed", 0, 0⟩).1.nextID = 2 :=
  ⟨(update_frame ⟨[(1, ⟨1, "x", "d", "Pending", 3, 3⟩), (2, ⟨2, "y", "", "Pending", 4, 4⟩)], 2⟩
      5 ⟨3, "z", "e", "Completed", 0, 0⟩).1 (by decide),
   ((update_frame ⟨[(1, ⟨1, "x", "d", "Pending", 3, 3⟩), (2, ⟨2, "y", "", "Pending", 4, 4⟩)], 2⟩
      5 ⟨1, "z", "e", "Completed", 0, 0⟩).2 ⟨1, "x", "d", "Pending", 3, 3⟩ (by decide)).1,
   ((update_frame ⟨[(1, ⟨1, "x", "d", "Pending", 3, 3⟩), (2, ⟨2, "y", "", "Pending", 4, 4⟩)], 2⟩
      5 ⟨1, "z", "e", "Completed", 0, 0⟩).2 ⟨1, "x", "d", "Pending", 3, 3⟩
      (by decide)).2.2.2.2⟩

/-- C11: for every repository state and every id, `Delete` succeeds exactly
when a task is stored under the id; when none is stored it fails with
`ErrNotFound`, the repository is unchanged and the handler answers 404; when
it succeeds, `Get` of the id and a second `Delete` of the id fail with
`ErrNotFound` (404 from the handler), `Get` of every other id returns what it
returned before, and the next-id counter is unchanged. -/
theorem delete_spec (r : memoryRepo) (id : Int) :
    ((r.Delete id).2 = Except.ok () ↔ ∃ t, mapGet r.tasks id = some t) ∧
    (mapGet r.tasks id = none →
      r.Delete id = (r, Except.error GoError.ErrNotFound) ∧
      Handler.delete r id = (r, writeErr 404 "task not found")) ∧
    (∀ t, mapGet r.tasks id = some t →
      Handler.delete r id = ((r.Delete id).1, ⟨204, Body.empty⟩) ∧
      (r.Delete id).1.Get id = Except.error GoError.ErrNotFound ∧
      (r.Delete id).1.Delete id = ((r.Delete id).1, Except.error GoError.ErrNotFound) ∧
      Handler.delete (r.Delete id).1 id = ((r.Delete id).1, writeErr 404 "task not found") ∧
      (∀ k, k ≠ id → (r.Delete id).1.Get k = r.Get k) ∧
      (r.Delete id).1.nextID = r.nextID) := by
  refine ⟨?_, ?_, ?_⟩
  · cases h : mapGet r.tasks id with
    | none => simp [delete_of_absent r id h]
    | some t => simp [delete_of_stored r id t h]
  · intro h
    exact ⟨delete_of_absent r id h, handler_delete_of_absent r id h⟩
  · intro t h
    have hgone : mapGet (mapDelete r.tasks id) id = none := by
      rw [mapGet_mapDelete]
      simp
    refine ⟨?_, ?_, ?_, ?_, ?_, ?_⟩
    · simp [Handler.delete, TaskService.DeleteTask, delete_of_stored r id t h]
    · rw [delete_of_stored r id t h]
      simp [memoryRepo.Get, hgone]
    · rw [delete_of_stored r id t h]
      exact delete_of_absent _ id hgone
    · rw [delete_of_stored r id t h]
      exact handler_delete_of_absent _ id hgone
    · intro k hk
      rw [delete_of_stored r id t h]
      simp [memoryRepo.Get, mapGet_mapDelete, hk]
    · rw [delete_of_stored r id t h]

/-- C11, witness: on the seeded repository `Delete` of id 9 fails and changes
nothing, and after `Delete` of id 2 a `Get` of id 2 fails while `Get` of id 1
returns what it returned before. -/
theorem delete_spec_witness :
    (seed NewMemoryRepo 1 2 3).Delete 9
        = (seed NewMemoryRepo 1 2 3, Except.error GoError.ErrNotFound) ∧
    ((seed NewMemoryRepo 1 2 3).Delete 2).1.Get 2 = Except.error GoError.ErrNotFound ∧
    ((seed NewMemoryRepo 1 2 3).Delete 2).1.Get 1 = (seed NewMemoryRepo 1 2 3).Get 1 :=
  ⟨((delete_spec (seed NewMemoryRepo 1 2 3) 9).2.1 (by decide)).1,
   ((delete_spec (seed NewMemoryRepo 1 2 3) 2).2.2
      ⟨2, "Deploy release", "Deploy v1.2 to staging", "InProgress", 2, 2⟩ (by decide)).2.1,
   ((delete_spec (seed NewMemoryRepo 1 2 3) 2).2.2
      ⟨2, "Deploy release", "Deploy v1.2 to staging", "InProgress", 2, 2⟩
      (by decide)).2.2.2.2.1 1 (by decide)⟩

/-- C12: for every page, size and status, `ListTasks` returns what `List`
returns for the filter with that status, limit `size'` and offset the `int`
product `(page' - 1) * size'`, where `page'` is `page` when `page ≥ 1` and 1
otherwise and `size'` is `size` when `size ≥ 1` and 10 otherwise; when the
product is at most the largest `int`, the offset is the product itself. -/
theorem listTasks_delegates (r : memoryRepo) (order : List Int) (page size : Int)
    (status : Option TaskStatus) :
    TaskService.ListTasks r order page size status
      = r.List order
          { Status := status,
            Offset := wrap64 (((if page < 1 then 1 else page) - 1) *
              (if size < 1 then 10 else size)),
            Limit := if size < 1 then 10 else size } ∧
    (((if page < 1 then 1 else page) - 1) * (if size < 1 then 10 else size) ≤ maxInt64 →
      TaskService.ListTasks r order page size status
        = r.List order
            { Status := status,
              Offset := ((if page < 1 then 1 else page) - 1) * (if size < 1 then 10 else size),
              Limit := if size < 1 then 10 else size }) := by
  refine ⟨rfl, ?_⟩
  intro h
  have h0 : 0 ≤ ((if page < 1 then 1 else page) - 1) * (if size < 1 then 10 else size) := by
    apply mul_nonneg
    · split <;> omega
    · split <;> omega
  unfold maxInt64 at h
  show r.List order _ = _
  rw [wrap64_eq_self (by omega) (by omega)]

/-- C12, witness: page 0 and size 0 are listed as page 1 with size 10, and page
3 with size 2 is listed from offset 4. -/
theorem listTasks_delegates_witness :
    TaskService.ListTasks (seed NewMemoryRepo 1 2 3) [3, 1, 2] 0 0 (some StatusPending)
        = (seed NewMemoryRepo 1 2 3).List [3, 1, 2] ⟨some StatusPending, 0, 10⟩ ∧
    TaskService.ListTasks (seed NewMemoryRepo 1 2 3) [3, 1, 2] 3 2 none
        = (seed NewMemoryRepo 1 2 3).List [3, 1, 2] ⟨none, 4, 2⟩ :=
  ⟨(listTasks_delegates (seed NewMemoryRepo 1 2 3) [3, 1, 2] 0 0 (some StatusPending)).2
      (by decide),
   (listTasks_delegates (seed NewMemoryRepo 1 2 3) [3, 1, 2] 3 2 none).2 (by decide)⟩

/-- C15 (amended): for every stored task and every decoded update request whose
title is present and empty after trimming white space, `Handler.update` calls
the service once, for the read `GetTask`, and does not call `UpdateTask`; it
answers 400 and returns the repository as it was, whatever description and
status the request carries: `GetTask` returns the same task, with the same
description, status and updated-at, as before. -/
theorem handler_update_blank_title (r : memoryRepo) (now : Time) (id : Int)
    (req : updateReq) (cur : Task) (title : String)
    (hcur : mapGet r.tasks id = some cur) (ht : req.Title = some title)
    (hb : strings.TrimSpace title = "") :
    Handler.updateCalls r id (some req) = [ServiceCall.GetTask id] ∧
    Handler.update r now id (some req) = (r, writeErr 400 "title cannot be empty") ∧
    TaskService.GetTask (Handler.update r now id (some req)).1 id = Except.ok cur := by
  have hget : TaskService.GetTask r id = Except.ok cur := (get_eq_ok_iff r id cur).2 hcur
  have hres : Handler.update r now id (some req)
      = (r, writeErr 400 "title cannot be empty") := by
    simp [Handler.update, hget, ht, hb]
  rw [hres]
  refine ⟨?_, rfl, hget⟩
  simp [Handler.updateCalls, hget, ht, hb]

/-- C15, witness: `PUT /tasks/1` with body
`{"title":"  ","description":"new","status":"Completed"}` on the seeded
repository. -/
theorem handler_update_blank_title_witness :
    Handler.updateCalls (seed NewMemoryRepo 1 2 3) 1
        (some ⟨some "  ", some "new", some "Completed"⟩) = [ServiceCall.GetTask 1] ∧
    Handler.update (seed NewMemoryRepo 1 2 3) 9 1
        (some ⟨some "  ", some "new", some "Completed"⟩)
      = (seed NewMemoryRepo 1 2 3, writeErr 400 "title cannot be empty") ∧
    TaskService.GetTask
        (Handler.update (seed NewMemoryRepo 1 2 3) 9 1
          (some ⟨some "  ", some "new", some "Completed"⟩)).1 1
      = Except.ok ⟨1, "Buy groceries", "Milk, eggs, bread", "Pending", 1, 1⟩ :=
  handler_update_blank_title (seed NewMemoryRepo 1 2 3) 9 1
    ⟨some "  ", some "new", some "Completed"⟩
    ⟨1, "Buy groceries", "Milk, eggs, bread", "Pending", 1, 1⟩ "  "
    (by decide) rfl (by decide)

/-- C15, counterexample: for `PUT /tasks/1` with body `{"title":"  "}` on the
seeded repository, where task 1 exists, `Handler.update` does call the service:
`GetTask 1` is called before the title is tested, so the list of its calls on
the service is not empty; the same body sent for the unknown id 7 is answered
404 and not 400, an answer that comes from that call. -/
theorem handler_update_calls_getTask :
    Handler.updateCalls (seed NewMemoryRepo 1 2 3) 1 (some ⟨some "  ", none, none⟩)
      = [ServiceCall.GetTask 1] ∧
    Handler.updateCalls (seed NewMemoryRepo 1 2 3) 1 (some ⟨some "  ", none, none⟩) ≠ [] ∧
    Handler.update (seed NewMemoryRepo 1 2 3) 9 1 (some ⟨some "  ", none, none⟩)
      = (seed NewMemoryRepo 1 2 3, writeErr 400 "title cannot be empty") ∧
    Handler.update (seed NewMemoryRepo 1 2 3) 9 7 (some ⟨some "  ", none, none⟩)
      = (seed NewMemoryRepo 1 2 3, writeErr 404 "task not found") := by
  decide

/-- C16: a decoded title trims to the empty string exactly when it is empty or
holds only white space; for such a title `Handler.create` answers 400 and
returns the repository, tasks and id counter, as it was; for every other
decoded title it answers 201 with the created task, which carries the decoded
title and description, has status Pending and is stored under its id. -/
theorem handler_create_title (r : memoryRepo) (now : Time) (req : createReq) :
    (strings.TrimSpace req.Title = "" ↔ req.Title.data.all unicode.IsSpace = true) ∧
    (strings.TrimSpace req.Title = "" →
      Handler.create r now (some req) = (r, writeErr 400 "title required")) ∧
    (strings.TrimSpace req.Title ≠ "" →
      ∃ t, (Handler.create r now (some req)).2 = ⟨201, Body.task t⟩ ∧
        t.Title = req.Title ∧ t.Description = req.Description ∧ t.Status = StatusPending ∧
        (Handler.create r now (some req)).1.Get t.ID = Except.ok t) := by
  refine ⟨trimSpace_eq_empty_iff req.Title, ?_, ?_⟩
  · intro h
    simp [Handler.create, h]
  · intro h
    have hne : req.Title ≠ "" := ne_empty_of_trimSpace_ne req.Title h
    have hres : Handler.create r now (some req)
        = ((TaskService.CreateTask r now req.Title req.Description).1,
            match (TaskService.CreateTask r now req.Title req.Description).2 with
            | Except.error err => writeErr 500 err.Error
            | Except.ok t => ⟨201, Body.task t⟩) := by
      simp only [Handler.create, h, if_false]
      rw [createTask_of_nonempty r now req.Title req.Description hne]
    rw [hres, createTask_of_nonempty r now req.Title req.Description hne]
    refine ⟨_, rfl, rfl, rfl, rfl, ?_⟩
    simp [memoryRepo.Get, mapGet_mapSet_self]

/-- C16, witness: `POST /tasks` with title "  " is answered 400 and leaves the
fresh repository as it was; with title "a" it is answered 201. -/
theorem handler_create_title_witness :
    Handler.create NewMemoryRepo 5 (some ⟨"  ", "d"⟩)
        = (NewMemoryRepo, writeErr 400 "title required") ∧
    ∃ t, (Handler.create NewMemoryRepo 5 (some ⟨"a", "d"⟩)).2 = ⟨201, Body.task t⟩ ∧
      t.Title = "a" ∧ t.Description = "d" ∧ t.Status = StatusPending ∧
      (Handler.create NewMemoryRepo 5 (some ⟨"a", "d"⟩)).1.Get t.ID = Except.ok t :=
  ⟨(handler_create_title NewMemoryRepo 5 ⟨"  ", "d"⟩).2.1 (by decide),
   (handler_create_title NewMemoryRepo 5 ⟨"a", "d"⟩).2.2 (by decide)⟩

/-- C17: in every state reached from an empty repository by a sequence of
`CreateTask`, `UpdateTask` and `DeleteTask` calls with arbitrary arguments,
successful or failing, every stored task has a non-empty title. -/
theorem service_titles_nonempty (ops : List ServiceOp) (k : Int) (t : Task)
    (h : mapGet (ops.foldl ServiceOp.next NewMemoryRepo).tasks k = some t) :
    t.Title ≠ "" :=
  (titles_serviceOps ops NewMemoryRepo inv_new titles_new).2 k t h

/-- C17, witness: after creating "a", a refused creation with the empty title
and an update of task 1 with the empty title, task 1 has the title "a". -/
theorem service_titles_nonempty_witness :
    (⟨1, "a", "e", "Completed", 1, 3⟩ : Task).Title ≠ "" :=
  service_titles_nonempty
    [ServiceOp.CreateTask 1 "a" "d", ServiceOp.CreateTask 2 "" "x",
     ServiceOp.UpdateTask 3 1 "" "e" "Completed"] 1 ⟨1, "a", "e", "Completed", 1, 3⟩
    (by decide)

/-- C14 (amended): with `v` the value of the first `status` parameter of the
query (`""` when there is none) trimmed of surrounding white space,
`parseStatusQuery` yields a filter exactly when `v` is one of "Pending",
"InProgress", "Completed", "Cancelled", and the filter is `v`; it yields no
filter and no error when `v` is empty; in every other case it yields an error
and `Handler.list` answers 400. -/
theorem parseStatusQuery_spec (q : url.Values) :
    ((∃ s, parseStatusQuery q = Except.ok (some s)) ↔
      TaskStatus.Enumerated (strings.TrimSpace (q.Get "status"))) ∧
    (TaskStatus.Enumerated (strings.TrimSpace (q.Get "status")) →
      parseStatusQuery q = Except.ok (some (strings.TrimSpace (q.Get "status")))) ∧
    (strings.TrimSpace (q.Get "status") = "" → parseStatusQuery q = Except.ok none) ∧
    (strings.TrimSpace (q.Get "status") ≠ "" →
      ¬ TaskStatus.Enumerated (strings.TrimSpace (q.Get "status")) →
      parseStatusQuery q = Except.error (GoError.Errorf "invalid status") ∧
      ∀ (r : memoryRepo) (order : List Int),
        Handler.list r order q = some (writeErr 400 "invalid status filter")) := by
  have hne : TaskStatus.Enumerated (strings.TrimSpace (q.Get "status")) →
      strings.TrimSpace (q.Get "status") ≠ "" := by
    intro he h0
    rw [h0] at he
    revert he
    unfold TaskStatus.Enumerated
    decide
  have hok : TaskStatus.Enumerated (strings.TrimSpace (q.Get "status")) →
      parseStatusQuery q = Except.ok (some (strings.TrimSpace (q.Get "status"))) := by
    intro he
    have h0 := hne he
    unfold TaskStatus.Enumerated at he
    simp only [parseStatusQuery, h0, if_false, he, if_true]
  have hempty : strings.TrimSpace (q.Get "status") = "" →
      parseStatusQuery q = Except.ok none := by
    intro h0
    simp only [parseStatusQuery, h0, if_true]
  have herr : strings.TrimSpace (q.Get "status") ≠ "" →
      ¬ TaskStatus.Enumerated (strings.TrimSpace (q.Get "status")) →
      parseStatusQuery q = Except.error (GoError.Errorf "invalid status") := by
    intro h0 he
    unfold TaskStatus.Enumerated at he
    simp only [parseStatusQuery, h0, if_false, he]
  refine ⟨⟨?_, fun he => ⟨_, hok he⟩⟩, hok, hempty, ?_⟩
  · rintro ⟨s, hs⟩
    by_contra he
    by_cases h0 : strings.TrimSpace (q.Get "status") = ""
    · rw [hempty h0] at hs
      cases hs
    · rw [herr h0 he] at hs
      cases hs
  · intro h0 he
    refine ⟨herr h0 he, ?_⟩
    intro r order
    simp only [Handler.list, herr h0 he]

/-- C14, witness: `?status=Completed` yields the filter Completed, and
`?status=Done` yields an error and the answer 400. -/
theorem parseStatusQuery_spec_witness :
    parseStatusQuery [("status", "Completed")] = Except.ok (some "Completed") ∧
    parseStatusQuery [("status", "Done")] = Except.error (GoError.Errorf "invalid status") ∧
    Handler.list NewMemoryRepo [] [("status", "Done")]
      = some (writeErr 400 "invalid status filter") :=
  ⟨(parseStatusQuery_spec [("status", "Completed")]).2.1
      (by unfold TaskStatus.Enumerated; decide),
   ((parseStatusQuery_spec [("status", "Done")]).2.2.2 (by decide)
      (by unfold TaskStatus.Enumerated; decide)).1,
   ((parseStatusQuery_spec [("status", "Done")]).2.2.2 (by decide)
      (by unfold TaskStatus.Enumerated; decide)).2 NewMemoryRepo []⟩

/-- C14, counterexample: a query that holds a `status` parameter with the empty
value, or one of white space, yields no filter and no error, and the list is
answered 200, unfiltered; and the value " Pending ", which is not exactly
"Pending", yields the filter Pending. -/
theorem parseStatusQuery_blank_or_padded :
    parseStatusQuery [("status", "")] = Except.ok none ∧
    parseStatusQuery [("status", "  ")] = Except.ok none ∧
    Handler.list (seed NewMemoryRepo 1 2 3) [1, 2, 3] [("status", "")]
      = some ⟨200, Body.list ⟨3, 1, 10, 1,
          [⟨1, "Buy groceries", "Milk, eggs, bread", "Pending", 1, 1⟩,
           ⟨2, "Deploy release", "Deploy v1.2 to staging", "InProgress", 2, 2⟩,
           ⟨3, "Retro meeting", "Sprint retro", "Completed", 3, 3⟩]⟩⟩ ∧
    (" Pending " : String) ≠ "Pending" ∧
    parseStatusQuery [("status", " Pending ")] = Except.ok (some "Pending") := by
  decide

/-- C18 (amended): for every repository state, every id and every filter, `Get`
and `List` leave the tasks and the id counter as they were; the same `Get`
after a `Get` returns the same result; the same `List` after a `List` returns
the same result when `range` visits the map in the same order both times, and
for any two visiting orders it returns the same total and the same number of
tasks (or panics both times). -/
theorem reads_are_pure (r : memoryRepo) (id : Int) (o₁ o₂ : List Int)
    (h₁ : r.RangeOrder o₁) (h₂ : r.RangeOrder o₂) (filter : ListFilter) :
    RepoOp.next r (RepoOp.get id) = r ∧
    RepoOp.next r (RepoOp.list o₁ filter) = r ∧
    (RepoOp.next r (RepoOp.get id)).Get id = r.Get id ∧
    (RepoOp.next r (RepoOp.list o₁ filter)).List o₁ filter = r.List o₁ filter ∧
    ((RepoOp.next r (RepoOp.list o₁ filter)).List o₂ filter).map
        (fun res => (res.1.length, res.2))
      = (r.List o₁ filter).map (fun res => (res.1.length, res.2)) :=
  ⟨rfl, rfl, rfl, rfl, list_sizes_order r o₂ o₁ h₂ h₁ filter⟩

/-- C18, witness: the seeded repository listed with limit 1, first visited in
the order 1, 2, 3 and then in the order 3, 2, 1: one task and the total 3 both
times. -/
theorem reads_are_pure_witness :
    ((seed NewMemoryRepo 1 2 3).List [3, 2, 1] ⟨none, 0, 1⟩).map
        (fun res => (res.1.length, res.2))
      = ((seed NewMemoryRepo 1 2 3).List [1, 2, 3] ⟨none, 0, 1⟩).map
        (fun res => (res.1.length, res.2)) :=
  (reads_are_pure (seed NewMemoryRepo 1 2 3) 1 [1, 2, 3] [3, 2, 1]
    (by unfold memoryRepo.RangeOrder; decide) (by unfold memoryRepo.RangeOrder; decide)
    ⟨none, 0, 1⟩).2.2.2.2

/-- C18, counterexample: on the seeded repository, with no write in between,
`List` with offset 0 and limit 1 returns task 1 when `range` visits the map in
the order 1, 2, 3 and task 3 when it visits it in the order 3, 2, 1; both are
orders in which `range` may visit the map. -/
theorem list_twice_differs :
    (seed NewMemoryRepo 1 2 3).RangeOrder [1, 2, 3] ∧
    (seed NewMemoryRepo 1 2 3).RangeOrder [3, 2, 1] ∧
    (seed NewMemoryRepo 1 2 3).List [1, 2, 3] ⟨none, 0, 1⟩
      = some ([⟨1, "Buy groceries", "Milk, eggs, bread", "Pending", 1, 1⟩], 3) ∧
    (RepoOp.next (seed NewMemoryRepo 1 2 3) (RepoOp.list [1, 2, 3] ⟨none, 0, 1⟩)).List
        [3, 2, 1] ⟨none, 0, 1⟩
      = some ([⟨3, "Retro meeting", "Sprint retro", "Completed", 3, 3⟩], 3) := by
  refine ⟨?_, ?_, by decide, by decide⟩
  · unfold memoryRepo.RangeOrder
    decide
  · unfold memoryRepo.RangeOrder
    decide

/-- C19 (amended): in every state reached from a fresh repository by
Create/Get/Update/Delete/List calls, no key is stored twice and the task stored
under key `k` has the ID `k`, so two stored tasks with the same ID are stored
under the same key; when the sequence holds at most `2^63 - 1` calls of
`Create`, every key `k` satisfies `1 ≤ k ≤ nextID`; and neither
`Repository.Update` nor `Service.UpdateTask`, in any state and with any
arguments, changes the ID or the created-at of a stored task. -/
theorem stored_ids (ops : List RepoOp) :
    (runOps NewMemoryRepo ops).IsMap ∧
    (∀ k t, mapGet (runOps NewMemoryRepo ops).tasks k = some t → t.ID = k) ∧
    (∀ k₁ k₂ t₁ t₂, mapGet (runOps NewMemoryRepo ops).tasks k₁ = some t₁ →
      mapGet (runOps NewMemoryRepo ops).tasks k₂ = some t₂ → t₁.ID = t₂.ID → k₁ = k₂) ∧
    ((createCount ops : Int) ≤ maxInt64 →
      ∀ k t, mapGet (runOps NewMemoryRepo ops).tasks k = some t →
        1 ≤ k ∧ k ≤ (runOps NewMemoryRepo ops).nextID) ∧
    (∀ (r : memoryRepo) (now : Time) (u : Task) (k : Int) (old : Task),
      mapGet r.tasks k = some old →
      ∃ new, mapGet (r.Update now u).1.tasks k = some new ∧ new.ID = old.ID ∧
        new.CreatedAt = old.CreatedAt) ∧
    (∀ (r : memoryRepo) (now : Time) (id : Int) (title desc : String) (status : TaskStatus)
      (k : Int) (old : Task), mapGet r.tasks k = some old →
      ∃ new, mapGet (TaskService.UpdateTask r now id title desc status).1.tasks k = some new ∧
        new.ID = old.ID ∧ new.CreatedAt = old.CreatedAt) := by
  have hinv := inv_runOps ops
  refine ⟨hinv.1, hinv.2, ?_, ?_, update_keeps_id, ?_⟩
  · intro k₁ k₂ t₁ t₂ h₁ h₂ heq
    rw [← hinv.2 k₁ t₁ h₁, ← hinv.2 k₂ t₂ h₂]
    exact heq
  · intro hmax
    exact (keysInRange_runOps ops NewMemoryRepo keysInRange_new
      (by show (0 : Int) + _ ≤ _; rw [zero_add]; exact hmax)).2
  · intro r now id title desc status k old h
    rcases updateTask_state r now id title desc status with hs | ⟨u, hs⟩
    · rw [hs]
      exact ⟨old, h, rfl, rfl⟩
    · rw [hs]
      exact update_keeps_id r now u k old h

/-- C19, witness: after two `Create` calls, an `Update` of task 1 and a `Delete`
of task 2, the task under key 1 has the ID 1 and the key lies between 1 and
the counter. -/
theorem stored_ids_witness :
    (⟨1, "z", "e", "Completed", 1, 3⟩ : Task).ID = 1 ∧
    ((1 : Int) ≤ 1 ∧
      (1 : Int) ≤ (runOps NewMemoryRepo
        [RepoOp.create 1 ⟨0, "a", "", StatusPending, 0, 0⟩,
         RepoOp.create 2 ⟨0, "b", "", StatusPending, 0, 0⟩,
         RepoOp.update 3 ⟨1, "z", "e", "Completed", 0, 0⟩, RepoOp.delete 2]).nextID) :=
  ⟨(stored_ids
      [RepoOp.create 1 ⟨0, "a", "", StatusPending, 0, 0⟩,
       RepoOp.create 2 ⟨0, "b", "", StatusPending, 0, 0⟩,
       RepoOp.update 3 ⟨1, "z", "e", "Completed", 0, 0⟩, RepoOp.delete 2]).2.1
      1 ⟨1, "z", "e", "Completed", 1, 3⟩ (by decide),
   (stored_ids
      [RepoOp.create 1 ⟨0, "a", "", StatusPending, 0, 0⟩,
       RepoOp.create 2 ⟨0, "b", "", StatusPending, 0, 0⟩,
       RepoOp.update 3 ⟨1, "z", "e", "Completed", 0, 0⟩, RepoOp.delete 2]).2.2.2.1
      (by decide) 1 ⟨1, "z", "e", "Completed", 1, 3⟩ (by decide)⟩

/-- C19, counterexample: after `2^63` calls of `Create` on a fresh repository a
task is stored under the key `-2^63`, which is below 1. -/
theorem stored_key_wraps :
    (runOps NewMemoryRepo
        (List.replicate (2 ^ 63) (RepoOp.create 0 ⟨0, "a", "", StatusPending, 0, 0⟩))).Get
        (-(2 ^ 63))
      = Except.ok ⟨-(2 ^ 63), "a", "", StatusPending, 0, 0⟩ ∧
    ¬ ((1 : Int) ≤ -(2 ^ 63)) := by
  have hn := runOps_replicate_nextID 0 ⟨0, "a", "", StatusPending, 0, 0⟩ (2 ^ 63 - 1)
    NewMemoryRepo
  have hlast := runOps_replicate_last 0 ⟨0, "a", "", StatusPending, 0, 0⟩ (2 ^ 63 - 1)
    NewMemoryRepo
  rcases hn with hn | hn
  · rw [hn] at hlast
    have hk : wrap64 (wrap64 (NewMemoryRepo.nextID + ((2 ^ 63 - 1 : Nat) : Int)) + 1)
        = -(2 ^ 63) := by decide
    rw [hk] at hlast
    exact ⟨hlast, by decide⟩
  · exact absurd hn (by decide)

/-- C20, the code at the failing input: on the seeded repository of three
tasks, visited in the order 1, 2, 3 and listed with size 2, the pages 1 and 2
hold the three tasks and page 3 is empty, but page `2^62 + 1`, a page after the
last, panics; with size 4 that page returns the three tasks of page 1 once
more; and with the largest `int` as size, page 2, a page after the last,
panics. -/
theorem listTasks_late_page_not_empty :
    TaskService.ListTasks (seed NewMemoryRepo 1 2 3) [1, 2, 3] 1 2 none
      = some ([⟨1, "Buy groceries", "Milk, eggs, bread", "Pending", 1, 1⟩,
               ⟨2, "Deploy release", "Deploy v1.2 to staging", "InProgress", 2, 2⟩], 3) ∧
    TaskService.ListTasks (seed NewMemoryRepo 1 2 3) [1, 2, 3] 2 2 none
      = some ([⟨3, "Retro meeting", "Sprint retro", "Completed", 3, 3⟩], 3) ∧
    TaskService.ListTasks (seed NewMemoryRepo 1 2 3) [1, 2, 3] 3 2 none = some ([], 3) ∧
    TaskService.ListTasks (seed NewMemoryRepo 1 2 3) [1, 2, 3] (2 ^ 62 + 1) 2 none = none ∧
    TaskService.ListTasks (seed NewMemoryRepo 1 2 3) [1, 2, 3] (2 ^ 62 + 1) 4 none
      = some ([⟨1, "Buy groceries", "Milk, eggs, bread", "Pending", 1, 1⟩,
               ⟨2, "Deploy release", "Deploy v1.2 to staging", "InProgress", 2, 2⟩,
               ⟨3, "Retro meeting", "Sprint retro", "Completed", 3, 3⟩], 3) ∧
    TaskService.ListTasks (seed NewMemoryRepo 1 2 3) [1, 2, 3] 2 maxInt64 none = none := by
  decide

end Alle
